import Mathlib

/-!
# Verification of `scripts/uf2conv.py` (rmk repository)

A shallow embedding of the UF2/HEX/BIN firmware converter in
`src/scripts/uf2conv.py`, together with theorems settling the frozen
claims about its specification.

Modelling conventions:
* Python `bytes` are `List Nat` (each entry a byte value 0..255 where the
  source produces one).
* Python `str` is `List Char` or `String` (ASCII model; `str.upper` and
  `int(s, 0)` are modelled for ASCII input, which covers every string the
  program compares against its ASCII-only tables).
* Machine words are `Nat` with explicit `% 2^32` where `struct` packing
  truncates; `struct.pack("<I", v)` is modelled little-endian via `le32`.
* Fallible code returns `Except String α`; a Python exception of any kind
  (AssertionError, TypeError, struct.error, IndexError, ValueError)
  is an `.error` value.
-/

/-- Little-endian 4-byte encoding, the model of `struct.pack("<I", n)`
(the packed value is `n % 2^32`). -/
def le32 (n : Nat) : List Nat :=
  [n % 256, n / 256 % 256, n / 65536 % 256, n / 16777216 % 256]

/-- Little-endian 32-bit read of the first four bytes of a buffer, the model
of one `I` field of `struct.unpack("<I...", buf)`.  (The source only unpacks
slices whose length is checked or fixed at 512, so the `getD` default is
never exercised on reachable inputs.) -/
def read32 (l : List Nat) : Nat :=
  l.getD 0 0 + 256 * l.getD 1 0 + 65536 * l.getD 2 0 + 16777216 * l.getD 3 0

/-- The `i`-th little-endian 32-bit word of a block, the model of `hd[i]`
for `hd = struct.unpack(b"<IIIIIIII", block[0:32])`. -/
def hdField (block : List Nat) (i : Nat) : Nat :=
  read32 (block.drop (4 * i))

/-- `UF2_MAGIC_START0` -/
def UF2_MAGIC_START0 : Nat := 0x0A324655
/-- `UF2_MAGIC_START1` -/
def UF2_MAGIC_START1 : Nat := 0x9E5D5157
/-- `UF2_MAGIC_END` -/
def UF2_MAGIC_END : Nat := 0x0AB16F30

theorem le32_length (n : Nat) : (le32 n).length = 4 := rfl

theorem read32_le32_append (n : Nat) (l : List Nat) :
    read32 (le32 n ++ l) = n % 4294967296 := by
  simp only [le32, read32, List.cons_append, List.getD, List.get?, List.nil_append,
    Option.getD_some]
  omega

theorem read32_le32 (n : Nat) : read32 (le32 n) = n % 4294967296 := by
  have h := read32_le32_append n []
  simpa using h

theorem drop4_le32_append (n : Nat) (l : List Nat) :
    (le32 n ++ l).drop 4 = l := rfl

/-! ## Format detection (`is_uf2`, `is_hex`) -/

/-- Model of `is_uf2`: `struct.unpack("<II", buf[0:8])` raises `struct.error`
when the buffer holds fewer than 8 bytes; otherwise the two words are
compared with the start magics. -/
def is_uf2 (buf : List Nat) : Except String Bool :=
  if buf.length < 8 then .error "struct.error: unpack requires a buffer of 8 bytes"
  else .ok (read32 buf = UF2_MAGIC_START0 ∧ read32 (buf.drop 4) = UF2_MAGIC_START1)

/-- A UTF-8 continuation byte. -/
def utf8Cont (c : Nat) : Bool := 0x80 ≤ c ∧ c < 0xC0

/-- Validity of a 3-byte sequence lead/first-continuation pair (excludes
overlong forms and surrogates as CPython does). -/
def utf8Valid3 (b c1 c2 : Nat) : Bool :=
  utf8Cont c1 ∧ utf8Cont c2 ∧ (b ≠ 0xE0 ∨ 0xA0 ≤ c1) ∧ (b ≠ 0xED ∨ c1 < 0xA0)

/-- Validity of a 4-byte sequence (excludes overlong forms and values
beyond U+10FFFF as CPython does). -/
def utf8Valid4 (b c1 c2 c3 : Nat) : Bool :=
  utf8Cont c1 ∧ utf8Cont c2 ∧ utf8Cont c3 ∧
    (b ≠ 0xF0 ∨ 0x90 ≤ c1) ∧ (b ≠ 0xF4 ∨ c1 < 0x90)

/-- Code point of a 2-byte sequence. -/
def utf8Val2 (b c1 : Nat) : Nat := (b - 0xC0) * 64 + (c1 - 0x80)
/-- Code point of a 3-byte sequence. -/
def utf8Val3 (b c1 c2 : Nat) : Nat :=
  (b - 0xE0) * 4096 + (c1 - 0x80) * 64 + (c2 - 0x80)
/-- Code point of a 4-byte sequence. -/
def utf8Val4 (b c1 c2 c3 : Nat) : Nat :=
  (b - 0xF0) * 262144 + (c1 - 0x80) * 4096 + (c2 - 0x80) * 64 + (c3 - 0x80)

/-- Fueled UTF-8 decoding loop; lead bytes `0x80..0xC1` (continuations and
overlong 2-byte leads) and `0xF5..` are invalid outright. -/
def utf8DecodeAux : Nat → List Nat → Option (List Nat)
  | _ + 1, [] => some []
  | fuel + 1, b :: rest =>
    if b < 0x80 then (utf8DecodeAux fuel rest).map (b :: ·)
    else if 0xC2 ≤ b ∧ b < 0xE0 then
      match rest with
      | c1 :: r =>
        if utf8Cont c1 then (utf8DecodeAux fuel r).map (utf8Val2 b c1 :: ·)
        else none
      | [] => none
    else if 0xE0 ≤ b ∧ b < 0xF0 then
      match rest with
      | c1 :: c2 :: r =>
        if utf8Valid3 b c1 c2 then
          (utf8DecodeAux fuel r).map (utf8Val3 b c1 c2 :: ·)
        else none
      | _ => none
    else if 0xF0 ≤ b ∧ b < 0xF5 then
      match rest with
      | c1 :: c2 :: c3 :: r =>
        if utf8Valid4 b c1 c2 c3 then
          (utf8DecodeAux fuel r).map (utf8Val4 b c1 c2 c3 :: ·)
        else none
      | _ => none
    else none
  | 0, [] => some []
  | 0, _ :: _ => none

/-- Strict UTF-8 decoder on byte lists, the model of `bytes.decode("utf-8")`:
`some` of the code points on valid input, `none` (a `UnicodeDecodeError`)
on invalid or truncated sequences, overlong forms, surrogates, and
out-of-range values.  The fuel equals the input length; every step consumes
at least one byte and one fuel, so the fuel-exhaustion case (which requires
a nonempty remainder) is unreachable. -/
def utf8Decode (l : List Nat) : Option (List Nat) := utf8DecodeAux l.length l

/-- The byte class of the regex `rb"^[:0-9a-fA-F\r\n]+$"`. -/
def hexClassByte (b : Nat) : Bool :=
  b = 58 ∨ (48 ≤ b ∧ b ≤ 57) ∨ (97 ≤ b ∧ b ≤ 102) ∨ (65 ≤ b ∧ b ≤ 70) ∨
    b = 13 ∨ b = 10

/-- Model of `is_hex`: decode the first 30 bytes as UTF-8 (a decode failure
is caught and yields `False`); then test `w[0] == ':'` (an `IndexError` on
the empty string is not caught) and match the whole buffer against the
character class (the regex `^[...]+$` matches exactly the non-empty
buffers all of whose bytes are in the class, `\n` being in the class). -/
def is_hex (buf : List Nat) : Except String Bool :=
  match utf8Decode (buf.take 30) with
  | none => .ok false
  | some w =>
    match w with
    | [] => .error "IndexError: string index out of range"
    | c :: _ => .ok (c = 58 ∧ buf ≠ [] ∧ buf.all hexClassByte)

/-- The three input classifications of the converter. -/
inductive FileFormat where
  | uf2
  | hex
  | binary
deriving Repr, DecidableEq

/-- Format detection as performed by `main`: `is_uf2` first, then `is_hex`,
raw binary otherwise. -/
def classifyFormat (buf : List Nat) : Except String FileFormat := do
  let u ← is_uf2 buf
  if u then return .uf2
  else
    let h ← is_hex buf
    if h then return .hex else return .binary

/-! ## UF2 decoding (`convert_from_uf2`)

The decoder's mutable locals (and the globals `appstartaddr`, `familyid`)
become an explicit state record.  The `familyid` global is the function
parameter `fid`; the `appstartaddr` global at call time is the initial
value of the `appstartaddr` field; the final state's `outp` field is the
`b"".join(outp)` return value and its `appstartaddr` field the global
after the call.  `families_found` is an insertion-ordered association
list, matching a Python dict. -/

structure UF2DecState where
  curraddr : Option Nat
  currfamilyid : Option Nat
  families_found : List (Nat × Nat)
  prev_flag : Option Nat
  all_flags_same : Bool
  outp : List Nat
  appstartaddr : Nat
deriving Repr, DecidableEq

/-- `hd[2] & 0x2000`: the family-ID-present flag of a block. -/
def blockTagged (block : List Nat) : Bool :=
  hdField block 2 &&& 0x2000 ≠ 0

/-- The value of `currfamilyid` after the statement
`if (hd[2] & 0x2000) and (currfamilyid == None): currfamilyid = hd[7]`. -/
def cfidAfterFirstIf (s : UF2DecState) (block : List Nat) : Option Nat :=
  if blockTagged block ∧ s.currfamilyid = none then some (hdField block 7)
  else s.currfamilyid

/-- The test `curraddr == None or ((hd[2] & 0x2000) and hd[7] != currfamilyid)`
(with `currfamilyid` already updated by the preceding `if`). -/
def resetTriggered (s : UF2DecState) (block : List Nat) : Bool :=
  s.curraddr = none ∨
    (blockTagged block ∧ some (hdField block 7) ≠ cfidAfterFirstIf s block)

/-- The cursor value against which the padding of this block is computed:
`newaddr` itself if the reset branch ran (making the padding 0), the
running `curraddr` otherwise (never `None` at this point). -/
def stepCursor (s : UF2DecState) (block : List Nat) : Nat :=
  if resetTriggered s block then hdField block 3 else s.curraddr.getD 0

/-- `padding = newaddr - curraddr` as computed for one block (a Python int,
hence a signed difference). -/
def stepGap (s : UF2DecState) (block : List Nat) : Int :=
  (hdField block 3 : Int) - (stepCursor s block : Int)

/-- The loop `while padding > 0: padding -= 4; outp.append(b"\x00\x00\x00\x00")`.
Each iteration strictly decreases `padding` by 4, so `p` itself bounds the
iteration count; the loop is run only after `padding % 4 == 0` has been
checked. -/
def padLoopAux : Nat → Nat → List Nat
  | _, 0 => []
  | p, fuel + 1 => if 0 < p then 0 :: 0 :: 0 :: 0 :: padLoopAux (p - 4) fuel else []

/-- Zero bytes emitted for a padding gap of `p`. -/
def padLoop (p : Nat) : List Nat := padLoopAux p p

/-- Dict update `families_found[k] = min(families_found.get(k, v), v)` as the
source writes it (keep the smaller of the stored address and `v`). -/
def insertMin : List (Nat × Nat) → Nat → Nat → List (Nat × Nat)
  | [], k, v => [(k, v)]
  | (k', v') :: rest, k, v =>
    if k' = k then (k', if v < v' then v else v') :: rest
    else (k', v') :: insertMin rest k v

/-- One iteration of the block loop of `convert_from_uf2` on `block`
(`isLast` marks `blockno == numblocks - 1`).  Python exceptions — the
`TypeError` raised by `"..." + ptr` in the bad-magic branch, and the
failing asserts (whose messages also raise `TypeError`, either way a
fatal exception) — are `.error`. -/
def processBlock (fid : Nat) (s : UF2DecState) (block : List Nat)
    (isLast : Bool) : Except String UF2DecState :=
  if ¬(hdField block 0 = UF2_MAGIC_START0 ∧ hdField block 1 = UF2_MAGIC_START1) then
    .error "TypeError: can only concatenate str (not int) to str [bad magic]"
  else if hdField block 2 &&& 1 ≠ 0 then
    -- NO-flash flag set; skip block (the final summary is skipped too)
    .ok s
  else if 476 < hdField block 4 then
    .error "Invalid UF2 data size"
  else
    let datalen := hdField block 4
    let newaddr := hdField block 3
    let hd7 := hdField block 7
    let cfid1 := cfidAfterFirstIf s block
    let doReset := resetTriggered s block
    let cfid2 := if doReset then some hd7 else cfid1
    let app2 := if doReset ∧ (fid = 0 ∨ fid = hd7) then newaddr else s.appstartaddr
    let padding := stepGap s block
    if padding < 0 then .error "Block out of order"
    else if 10 * 1024 * 1024 < padding then .error "More than 10M of padding needed"
    else if padding % 4 ≠ 0 then .error "Non-word padding size"
    else
      let outp1 := s.outp ++ padLoop padding.toNat
      let outp2 :=
        if fid = 0 ∨ (blockTagged block ∧ fid = hd7) then
          outp1 ++ (block.drop 32).take datalen
        else outp1
      let fams :=
        if blockTagged block then insertMin s.families_found hd7 newaddr
        else s.families_found
      let pf := if s.prev_flag = none then some (hdField block 2) else s.prev_flag
      let afs := if pf ≠ some (hdField block 2) then false else s.all_flags_same
      let s' : UF2DecState :=
        { curraddr := some (newaddr + datalen), currfamilyid := cfid2,
          families_found := fams, prev_flag := pf, all_flags_same := afs,
          outp := outp2, appstartaddr := app2 }
      if isLast then
        if 1 < fams.length ∧ fid = 0 then
          .ok { s' with outp := [], appstartaddr := 0 }
        else .ok s'
      else .ok s'

/-- The block loop: every block is processed in order, the last one with
`isLast = true`. -/
def processBlocks (fid : Nat) : UF2DecState → List (List Nat) →
    Except String UF2DecState
  | s, [] => .ok s
  | s, [b] => processBlock fid s b true
  | s, b :: b2 :: rest => do
      let s' ← processBlock fid s b false
      processBlocks fid s' (b2 :: rest)

/-- The 512-byte block slices of a buffer: `numblocks = len(buf) // 512`
slices `buf[512*i : 512*i + 512]`. -/
def uf2blocks (buf : List Nat) : List (List Nat) :=
  (List.range (buf.length / 512)).map fun i => (buf.drop (512 * i)).take 512

/-- Model of `convert_from_uf2`: `fid` is the `familyid` global (the family
filter), `a0` the `appstartaddr` global at call time. -/
def convert_from_uf2 (fid a0 : Nat) (buf : List Nat) :
    Except String UF2DecState :=
  processBlocks fid
    { curraddr := none, currfamilyid := none, families_found := [],
      prev_flag := none, all_flags_same := true, outp := [],
      appstartaddr := a0 }
    (uf2blocks buf)

/-! ## UF2 encoding (`convert_to_uf2`) -/

/-- Model of `convert_to_uf2`: `fid` is the `familyid` global, `a0` the
`appstartaddr` global; the image is split into 256-byte chunks, the last
zero-padded, and each chunk becomes a 512-byte block (`datapadding` is the
`512 - 256 - 32 - 4 = 220` zero bytes accumulated four at a time). -/
def convert_to_uf2 (fid a0 : Nat) (file_content : List Nat) : List Nat :=
  let numblocks := (file_content.length + 255) / 256
  let flags : Nat := if fid ≠ 0 then 0x2000 else 0
  List.flatten <| (List.range numblocks).map fun blockno =>
    let ptr := 256 * blockno
    let chunk := (file_content.drop ptr).take 256
    le32 UF2_MAGIC_START0 ++ (le32 UF2_MAGIC_START1 ++ (le32 flags ++
      (le32 (ptr + a0) ++ (le32 256 ++ (le32 blockno ++ (le32 numblocks ++
      (le32 fid ++ ((chunk ++ List.replicate (256 - chunk.length) 0) ++
      (List.replicate 220 0 ++ le32 UF2_MAGIC_END)))))))))

/-! ## Intel HEX decoding (`Block`, `convert_from_hex_to_uf2`)

`convert_from_hex_to_uf2` operates on the UTF-8-decoded input string.  The
Python `Block` objects are mutated through the `currblock` alias, which is
always the most recently created block; the model therefore keeps the block
list most-recent-first (`blocks`, reversed at the end).  The state also
records the ordered trace of byte writes `(address, value)` the data
records perform; this extra (write-only) field is used to state trace
properties and does not influence any computed value. -/

/-- One 256-byte output block under construction (`class Block`). -/
structure Block where
  addr : Nat
  bytes : List Nat
deriving Repr, DecidableEq

/-- The 512-byte UF2 rendering of a block once `struct.pack`'s range checks
have passed; `fid` is the `familyid` global, the header `datalen` field is
fixed at 256 and the body is padded with zeros up to offset 508
(`while len(hd) < 512 - 4`). -/
def Block.render (fid : Nat) (b : Block) (blockno numblocks : Nat) : List Nat :=
  let flags : Nat := if fid ≠ 0 then 0x2000 else 0
  let body := b.bytes.take 256
  le32 UF2_MAGIC_START0 ++ (le32 UF2_MAGIC_START1 ++ (le32 flags ++
    (le32 b.addr ++ (le32 256 ++ (le32 blockno ++ (le32 numblocks ++
    (le32 fid ++ (body ++ (List.replicate (508 - (32 + body.length)) 0 ++
    le32 UF2_MAGIC_END)))))))))

/-- `Block.encode`: `struct.pack("<IIIIIIII", ...)` raises `struct.error`
whenever a packed word exceeds the `I` range.  Of the eight words only
`self.addr`, `blockno`, `numblocks` and `familyid` can be out of range (the
magics, the flags word and the constant 256 never are); all values are
non-negative here, so only the upper bound `< 2^32` is checked. -/
def Block.encode (fid : Nat) (b : Block) (blockno numblocks : Nat) :
    Except String (List Nat) :=
  if 2 ^ 32 ≤ b.addr ∨ 2 ^ 32 ≤ blockno ∨ 2 ^ 32 ≤ numblocks ∨ 2 ^ 32 ≤ fid
  then .error "struct.error: argument out of range"
  else .ok (Block.render fid b blockno numblocks)

/-- `str.split('\n')`: always at least one (possibly empty) piece. -/
def splitLines : List Char → List (List Char)
  | [] => [[]]
  | c :: rest =>
    if c = '\n' then [] :: splitLines rest
    else
      match splitLines rest with
      | line :: others => (c :: line) :: others
      | [] => [[c]]

/-- Value of one hex digit (`int(c, 16)` for a single character). -/
def hexDigitVal (c : Char) : Option Nat :=
  if 48 ≤ c.toNat ∧ c.toNat ≤ 57 then some (c.toNat - 48)
  else if 97 ≤ c.toNat ∧ c.toNat ≤ 102 then some (c.toNat - 87)
  else if 65 ≤ c.toNat ∧ c.toNat ≤ 70 then some (c.toNat - 55)
  else none

/-- The record-byte loop `while i < len(line) - 1: rec.append(int(line[i:i+2], 16))`:
pairs of hex digits are consumed while at least two characters remain (a
trailing odd character is ignored); a non-hex pair raises `ValueError`. -/
def parsePairs : List Char → Except String (List Nat)
  | c1 :: c2 :: rest =>
    match hexDigitVal c1, hexDigitVal c2 with
    | some v1, some v2 => (parsePairs rest).map fun vs => (16 * v1 + v2) :: vs
    | _, _ => .error "ValueError: invalid literal for int() with base 16"
  | _ => .ok []

/-- State of the hex-to-UF2 conversion loop. -/
structure HexState where
  upper : Nat
  appstartaddr : Option Nat
  blocks : List Block
  writes : List (Nat × Nat)
deriving Repr, DecidableEq

/-- `addr & ~0xff`, the 256-byte-aligned base of an address. -/
def alignBase (addr : Nat) : Nat := addr / 256 * 256

/-- One data byte placement:
`if not currblock or currblock.addr & ~0xff != addr & ~0xff: ...` followed by
`currblock.bytes[addr & 0xff] = v`.  During the loop the list is kept
most-recent-first, its head being `currblock`. -/
def writeByte (blocks : List Block) (addr v : Nat) : List Block :=
  match blocks with
  | [] => [⟨alignBase addr, (List.replicate 256 0).set (addr % 256) v⟩]
  | b :: rest =>
    if b.addr = alignBase addr then ⟨b.addr, b.bytes.set (addr % 256) v⟩ :: rest
    else ⟨alignBase addr, (List.replicate 256 0).set (addr % 256) v⟩ :: b :: rest

/-- The inner data loop of a type-0 record: place each byte at the running
address and advance it. -/
def writeData (st : HexState) (addr : Nat) : List Nat → HexState
  | [] => st
  | v :: vs =>
    writeData
      { st with blocks := writeByte st.blocks addr v,
                writes := st.writes ++ [(addr, v)] }
      (addr + 1) vs

/-- The per-line loop of `convert_from_hex_to_uf2`.  Lines not starting with
`:` are skipped; an empty line raises `IndexError` at `line[0]`; record
fields beyond the parsed bytes raise `IndexError`; a type-1 (EOF) record
breaks out of the loop. -/
def processLines (st : HexState) : List (List Char) → Except String HexState
  | [] => .ok st
  | [] :: _ => .error "IndexError: string index out of range"
  | (c :: cs) :: rest =>
      if c ≠ ':' then processLines st rest
      else do
        let recBytes ← parsePairs cs
        match recBytes.get? 3 with
        | none => .error "IndexError: list index out of range"
        | some tp =>
          if tp = 4 then
            match recBytes.get? 4, recBytes.get? 5 with
            | some r4, some r5 =>
                processLines { st with upper := (r4 * 256 + r5) * 65536 } rest
            | _, _ => .error "IndexError: list index out of range"
          else if tp = 2 then
            match recBytes.get? 4, recBytes.get? 5 with
            | some r4, some r5 =>
                processLines { st with upper := (r4 * 256 + r5) * 16 } rest
            | _, _ => .error "IndexError: list index out of range"
          else if tp = 1 then
            .ok st
          else if tp = 0 then
            match recBytes.get? 1, recBytes.get? 2 with
            | some r1, some r2 =>
              let addr := st.upper + (r1 * 256 + r2)
              let st :=
                if st.appstartaddr = none then { st with appstartaddr := some addr }
                else st
              let data := (recBytes.drop 4).dropLast
              processLines (writeData st addr data) rest
            | _, _ => .error "IndexError: list index out of range"
          else
            processLines st rest

/-- The block-building phase of `convert_from_hex_to_uf2`: the loop keeps
`blocks` most-recent-first, so the final reversal restores creation order
(in Python the list is appended to at creation and the shared `currblock`
object mutated in place). -/
def hexToBlocks (buf : List Char) : Except String HexState :=
  (processLines ⟨0, none, [], []⟩ (splitLines buf)).map
    fun st => { st with blocks := st.blocks.reverse }

/-- `resfile += blocks[i].encode(i, numblocks)` for `i in range(numblocks)`:
the loop stops at the first `struct.error`. -/
def encodeAll (fid numblocks : Nat) : Nat → List Block →
    Except String (List Nat)
  | _, [] => .ok []
  | i, b :: rest => do
      let hd ← Block.encode fid b i numblocks
      let tl ← encodeAll fid numblocks (i + 1) rest
      pure (hd ++ tl)

/-- The concatenated renderings, for stating what `encodeAll` returns when
every header word is in range. -/
def renderAll (fid numblocks : Nat) : Nat → List Block → List Nat
  | _, [] => []
  | i, b :: rest =>
      Block.render fid b i numblocks ++ renderAll fid numblocks (i + 1) rest

/-- Model of `convert_from_hex_to_uf2`: the returned byte string and the
`appstartaddr` global after the call (the global is reset to `None` on
entry and set by the first type-0 record). -/
def convert_from_hex_to_uf2 (fid : Nat) (buf : List Char) :
    Except String (List Nat × Option Nat) := do
  let st ← hexToBlocks buf
  let out ← encodeAll fid st.blocks.length 0 st.blocks
  pure (out, st.appstartaddr)

/-! ## Family registry (`chip_families`, `load_families`) and `main`'s
family-argument resolution -/

/-- The static `chip_families` table: `(short_name, id)` pairs (the
`description` field is never read by the program). -/
def chip_families : List (String × String) := [
  ("ATMEGA32", "0x16573617"),
  ("SAML21", "0x1851780a"),
  ("NRF52", "0x1b57745f"),
  ("ESP32", "0x1c5f21b0"),
  ("STM32L1", "0x1e1f432d"),
  ("STM32L0", "0x202e3a91"),
  ("STM32WL", "0x21460ff0"),
  ("RTL8710B", "0x22e0d6fc"),
  ("LPC55", "0x2abc77ec"),
  ("STM32G0", "0x300f5633"),
  ("GD32F350", "0x31d228c6"),
  ("RTL8720D", "0x3379CFE2"),
  ("STM32L5", "0x04240bdf"),
  ("STM32G4", "0x4c71240a"),
  ("MIMXRT10XX", "0x4fb2d5bd"),
  ("XR809", "0x51e903a8"),
  ("STM32F7", "0x53b80f00"),
  ("SAMD51", "0x55114460"),
  ("STM32F4", "0x57755a57"),
  ("FX2", "0x5a18069b"),
  ("STM32F2", "0x5d1a0a2e"),
  ("STM32F1", "0x5ee21072"),
  ("NRF52833", "0x621e937a"),
  ("STM32F0", "0x647824b6"),
  ("BK7231U", "0x675a40b0"),
  ("SAMD21", "0x68ed2b88"),
  ("BK7251", "0x6a82cc42"),
  ("STM32F3", "0x6b846188"),
  ("STM32F407", "0x6d0922fa"),
  ("STM32H7", "0x6db66082"),
  ("STM32WB", "0x70d16653"),
  ("BK7231N", "0x7b3ef230"),
  ("ESP8266", "0x7eab61ed"),
  ("KL32L2", "0x7f83e793"),
  ("STM32F407VG", "0x8fb060fe"),
  ("RTL8710A", "0x9fffd543"),
  ("NRF52840", "0xada52840"),
  ("ESP32S2", "0xbfdd4eee"),
  ("ESP32S3", "0xc47e5767"),
  ("ESP32C3", "0xd42ba06c"),
  ("ESP32C2", "0x2b88d29c"),
  ("ESP32H2", "0x332726f6"),
  ("ESP32C6", "0x540ddf62"),
  ("ESP32P4", "0x3d308e94"),
  ("ESP32C5", "0xf71c0343"),
  ("ESP32C61", "0x77d850c4"),
  ("BL602", "0xde1270b7"),
  ("RTL8720C", "0xe08f7564"),
  ("RP2040", "0xe48bff56"),
  ("RP2XXX_ABSOLUTE", "0xe48bff57"),
  ("RP2XXX_DATA", "0xe48bff58"),
  ("RP2350_ARM_S", "0xe48bff59"),
  ("RP2350_RISCV", "0xe48bff5a"),
  ("RP2350_ARM_NS", "0xe48bff5b"),
  ("STM32L4", "0x00ff6919"),
  ("GD32VF103", "0x9af03e33"),
  ("CSK4", "0x4f6ace52"),
  ("CSK6", "0x6e7348a8"),
  ("M0SENSE", "0x11de784a"),
  ("MaixPlay-U4", "0x4b684d71"),
  ("RZA1LU", "0x9517422f"),
  ("STM32F411xE", "0x2dc309c5"),
  ("STM32F411xC", "0x06d1097b"),
  ("NRF52832xxAA", "0x72721d4e"),
  ("NRF52832xxAB", "0x6f752678"),
  ("AT32F415", "0xa0c97b8e"),
  ("CH32V", "0x699b62ec"),
  ("RA4M1", "0x7be8976d")]

/-! ### `int(s, 0)` (ASCII model)

`main` resolves the `--family` argument by dict lookup on the upper-cased
string, falling back to `int(args.family, 0)`.  The following functions
model CPython's `int(s, 0)` for ASCII strings: optional surrounding
whitespace, an optional sign, a `0x`/`0o`/`0b` prefix (with one optional
underscore after it) or a decimal run, single underscores allowed between
digits, and a leading zero allowed on a decimal run only when the whole
run denotes zero.  (CPython additionally accepts non-ASCII Unicode digits
and whitespace, which never match the ASCII-only family table either.) -/

/-- Digit value in a given base (ASCII `0-9a-zA-Z`, rejected when ≥ base). -/
def pyDigitVal (base : Nat) (c : Char) : Option Nat :=
  let v :=
    if 48 ≤ c.toNat ∧ c.toNat ≤ 57 then some (c.toNat - 48)
    else if 97 ≤ c.toNat ∧ c.toNat ≤ 122 then some (c.toNat - 87)
    else if 65 ≤ c.toNat ∧ c.toNat ≤ 90 then some (c.toNat - 55)
    else none
  match v with
  | some v => if v < base then some v else none
  | none => none

/-- ASCII whitespace stripped by `int()`. -/
def isPySpace (c : Char) : Bool :=
  c.toNat = 32 ∨ c.toNat = 9 ∨ c.toNat = 10 ∨ c.toNat = 13 ∨ c.toNat = 11 ∨
    c.toNat = 12

/-- `s.strip()` for the whitespace above. -/
def pyStrip (l : List Char) : List Char :=
  ((l.dropWhile isPySpace).reverse.dropWhile isPySpace).reverse

/-- Digit run continuation: after a first digit, digits with single
underscores between them, consuming the whole rest. -/
def digitsLoop (base acc : Nat) : List Char → Option Nat
  | [] => some acc
  | c :: rest =>
    if c = '_' then
      match rest with
      | c2 :: rest2 =>
        match pyDigitVal base c2 with
        | some v => digitsLoop base (acc * base + v) rest2
        | none => none
      | [] => none
    else
      match pyDigitVal base c with
      | some v => digitsLoop base (acc * base + v) rest
      | none => none

/-- A complete digit run: must start with a digit (no leading underscore)
and consume everything. -/
def digitRun (base : Nat) : List Char → Option Nat
  | [] => none
  | c :: rest =>
    match pyDigitVal base c with
    | some v => digitsLoop base v rest
    | none => none

/-- Digit run after a `0x`/`0o`/`0b` prefix: one underscore may separate the
prefix from the first digit. -/
def pyBasedRun (base : Nat) : List Char → Option Nat
  | [] => none
  | c :: rest => if c = '_' then digitRun base rest else digitRun base (c :: rest)

/-- A decimal run: a leading `0` is only legal when the value is zero. -/
def pyDecRun (l : List Char) : Option Nat :=
  match digitRun 10 l with
  | some v =>
    match l with
    | c :: _ => if c = '0' ∧ v ≠ 0 then none else some v
    | [] => none
  | none => none

/-- The unsigned body of an `int(s, 0)` literal. -/
def pyIntBody (l : List Char) : Option Nat :=
  match l with
  | c0 :: c1 :: rest =>
    if c0 = '0' ∧ (c1 = 'x' ∨ c1 = 'X') then pyBasedRun 16 rest
    else if c0 = '0' ∧ (c1 = 'o' ∨ c1 = 'O') then pyBasedRun 8 rest
    else if c0 = '0' ∧ (c1 = 'b' ∨ c1 = 'B') then pyBasedRun 2 rest
    else pyDecRun l
  | _ => pyDecRun l

/-- `int(s, 0)` for ASCII strings: `some` of the value, `none` for a
`ValueError`. -/
def pyIntBase0 (l : List Char) : Option Int :=
  match pyStrip l with
  | [] => none
  | c :: r =>
    if c = '+' then (pyIntBody r).map Int.ofNat
    else if c = '-' then (pyIntBody r).map fun n => -(n : Int)
    else (pyIntBody (c :: r)).map Int.ofNat

/-- `str.upper()` for ASCII characters. -/
def pyUpper (c : Char) : Char :=
  if 97 ≤ c.toNat ∧ c.toNat ≤ 122 then Char.ofNat (c.toNat - 32) else c

/-- `load_families`: short name mapped to `int(id, 0)` (every `id` in the
table is a valid hex literal, so the `getD 0` default is never taken). -/
def load_families : List (String × Int) :=
  chip_families.map fun e => (e.1, (pyIntBase0 e.2.toList).getD 0)

/-- `main`'s family resolution:
`if args.family.upper() in families: familyid = families[args.family.upper()]`,
otherwise `int(args.family, 0)`, otherwise the fatal error listing the
valid names.  The error value carries `families.keys()`. -/
def resolveFamily (s : String) : Except (List String) Int :=
  let fams := load_families
  let u := s.toList.map pyUpper
  match fams.find? (fun e => e.1.toList = u) with
  | some e => .ok e.2
  | none =>
    match pyIntBase0 s.toList with
    | some n => .ok n
    | none => .error (fams.map Prod.fst)

/-! ## C-array rendering and the `main` decision procedure -/

/-- One lowercase hex digit. -/
def hexDigitChar (n : Nat) : Char :=
  if n < 10 then Char.ofNat (48 + n) else Char.ofNat (87 + n)

/-- `"0x%02x, " % b` for a byte. -/
def hexByte (b : Nat) : String :=
  String.mk [hexDigitChar (b / 16 % 16), hexDigitChar (b % 16)]

/-- Model of `convert_to_carray` (the returned UTF-8 bytes of the generated
C source; the text is ASCII so the bytes are the character codes). -/
def convert_to_carray (file_content : List Nat) : List Nat :=
  let header :=
    "const unsigned long bindata_len = " ++ toString file_content.length ++
      ";\n" ++ "const unsigned char bindata[] __attribute__((aligned(16))) = \x7b"
  let body := String.join <| (List.range file_content.length).map fun i =>
    (if i % 16 = 0 then "\n" else "") ++ "0x" ++
      hexByte (file_content.getD i 0) ++ ", "
  (header ++ body ++ "\n\x7d;\n").toList.map Char.toNat

/-- The already-parsed command-line options that drive the conversion/flash
decision procedure (`--list` mode and the unused `--device` option are not
modelled; `familyid` is the resolved family filter, `base` the parsed
`--base`). -/
structure MainArgs where
  base : Nat
  familyid : Nat
  deploy : Bool
  info : Bool
  convert : Bool
  carray : Bool
  wait : Bool
  output : Option String
deriving Repr, DecidableEq

/-- The output buffer variable of `main`: the info branch assigns the *str*
`""` while every other branch assigns bytes, and `write_file` (binary
mode) raises `TypeError` on a str. -/
inductive OutBuf where
  | bytes (l : List Nat)
  | str (s : String)
deriving Repr, DecidableEq

/-- The observable effect plan of one `main` invocation: the conversion
result, the file writes (path, bytes) and the per-drive writes it
performs. -/
structure Plan where
  outbuf : OutBuf
  ext : String
  appstartaddr : Option Nat
  fileWrites : List (String × List Nat)
  driveWrites : List (String × List Nat)
deriving Repr, DecidableEq

/-- Model of `main` after argument parsing and family resolution, for a
given input buffer and the list of currently discovered drives.  Effects
are recorded rather than performed; the unbounded `--wait` poll (which in
the model's fixed world never sees a new drive) is a failure.  Mirrors the
source's branch chain: deploy passthrough; UF2 decode (info or not);
hex; carray; UF2 encode; then the summary print (`"%x" % None` raises),
the output-path defaulting, the file write, and the drive writes. -/
def mainPlan (args : MainArgs) (inpbuf : List Nat) (drives : List String) :
    Except String Plan := do
  let a0 := args.base
  let fid := args.familyid
  let from_uf2 ← is_uf2 inpbuf
  let (outbuf, ext, appstart) ←
    if args.deploy then
      pure (OutBuf.bytes inpbuf, "uf2", some a0)
    else if from_uf2 ∧ ¬args.info then do
      let s ← convert_from_uf2 fid a0 inpbuf
      pure (OutBuf.bytes s.outp, "bin", some s.appstartaddr)
    else if from_uf2 ∧ args.info then do
      let s ← convert_from_uf2 fid a0 inpbuf
      pure (OutBuf.str "", "uf2", some s.appstartaddr)
    else do
      let h ← is_hex inpbuf
      if h then
        match utf8Decode inpbuf with
        | none => throw "UnicodeDecodeError"
        | some cps => do
          let r ← convert_from_hex_to_uf2 fid (cps.map Char.ofNat)
          pure (OutBuf.bytes r.1, "uf2", r.2)
      else if args.carray then
        pure (OutBuf.bytes (convert_to_carray inpbuf), "h", some a0)
      else
        pure (OutBuf.bytes (convert_to_uf2 fid a0 inpbuf), "uf2", some a0)
  if ¬args.deploy ∧ ¬args.info ∧ appstart = none then
    throw "TypeError: %x format: an integer is required, not NoneType"
  let out1 : Option String :=
    if args.convert ∨ ext ≠ "uf2" then
      match args.output with
      | none => some ("flash." ++ ext)
      | some o => some o
    else args.output
  let fileWrites ←
    match out1 with
    | some p =>
      match outbuf with
      | .bytes bs => pure [(p, bs)]
      | .str _ => throw "TypeError: a bytes-like object is required, not str"
    | none => pure []
  let driveWrites ←
    if ext = "uf2" ∧ ¬args.convert ∧ ¬args.info then
      if drives = [] then
        if args.wait then throw "unbounded wait for a drive (modelled as failure)"
        else if out1 = none then throw "No drive to deploy."
        else pure []
      else
        match outbuf with
        | .bytes bs => pure (drives.map fun d => (d ++ "/NEW.UF2", bs))
        | .str _ => throw "TypeError: a bytes-like object is required, not str"
    else pure []
  return { outbuf := outbuf, ext := ext, appstartaddr := appstart,
           fileWrites := fileWrites, driveWrites := driveWrites }

/-! ## C4: format-detection totality -/

theorem option_map_cons_ne_nil {o : Option (List Nat)} {x : Nat} {w : List Nat}
    (h : o.map (x :: ·) = some w) : w ≠ [] := by
  cases o with
  | none => simp at h
  | some l => simp only [Option.map_some', Option.some.injEq] at h; simp [← h]

theorem utf8DecodeAux_ne_nil {fuel : Nat} {l w : List Nat}
    (h : utf8DecodeAux fuel l = some w) (hl : l ≠ []) : w ≠ [] := by
  match fuel, l with
  | 0, [] => exact absurd rfl hl
  | 0, b :: rest => exact Option.noConfusion h
  | fuel + 1, [] => exact absurd rfl hl
  | fuel + 1, b :: rest =>
    rw [utf8DecodeAux.eq_def] at h
    simp only [] at h
    repeat'
      first
      | exact option_map_cons_ne_nil h
      | exact Option.noConfusion h
      | split at h

theorem utf8Decode_ne_nil {l w : List Nat} (h : utf8Decode l = some w)
    (hl : l ≠ []) : w ≠ [] :=
  utf8DecodeAux_ne_nil h hl

theorem is_hex_ok_of_ne_nil {buf : List Nat} (h : buf ≠ []) :
    ∃ b, is_hex buf = .ok b := by
  unfold is_hex
  cases hu : utf8Decode (buf.take 30) with
  | none => exact ⟨false, rfl⟩
  | some w =>
    have hw : w ≠ [] := by
      refine utf8Decode_ne_nil hu ?_
      cases buf with
      | nil => exact absurd rfl h
      | cons a l => simp
    cases w with
    | nil => exact absurd rfl hw
    | cons c rest => exact ⟨_, rfl⟩

/-- C4 (amended).  For every byte buffer of length at least 8, format
detection (`is_uf2`, then `is_hex`, with raw binary as the remaining case)
never raises and classifies the buffer as exactly one of UF2, Intel HEX or
raw binary (`classifyFormat` returns exactly one constructor of
`FileFormat`), and a UTF-8 decode failure inside `is_hex` yields the
classification "not hex" rather than an error.  The original claim extends
this to all buffers including those shorter than 8 bytes; that part is
refuted by `classify_errors_on_short_buffer`, because
`struct.unpack("<II", buf[0:8])` in `is_uf2` raises `struct.error` there. -/
theorem classify_total_of_length_ge8 :
    (∀ buf : List Nat, 8 ≤ buf.length → (classifyFormat buf).isOk = true) ∧
    (∀ buf : List Nat, utf8Decode (buf.take 30) = none → is_hex buf = .ok false) := by
  constructor
  · intro buf h
    have hne : buf ≠ [] := by
      intro hnil; rw [hnil] at h; simp at h
    obtain ⟨b, hb⟩ := is_hex_ok_of_ne_nil hne
    unfold classifyFormat
    have hu : is_uf2 buf = .ok (decide (read32 buf = UF2_MAGIC_START0 ∧
        read32 (buf.drop 4) = UF2_MAGIC_START1)) := by
      unfold is_uf2
      rw [if_neg (by omega)]
    rw [hu]
    by_cases hcond : (read32 buf = UF2_MAGIC_START0 ∧
        read32 (List.drop 4 buf) = UF2_MAGIC_START1)
    · simp [hcond, Bind.bind, Except.bind, Except.isOk, Except.toBool, pure,
        Except.pure]
    · simp only [hcond, decide_False, Bind.bind, Except.bind, hb]
      cases b <;>
        simp [Except.isOk, Except.toBool, pure, Except.pure]
  · intro buf hdec
    unfold is_hex
    rw [hdec]

/-- C4 counterexample: on the empty buffer (length < 8) detection does not
return a classification: `is_uf2` raises `struct.error`, so the claim's
"never raises an error ... including the empty buffer and buffers shorter
than 8 bytes" is false on the code. -/
theorem classify_errors_on_short_buffer :
    classifyFormat [] =
      .error "struct.error: unpack requires a buffer of 8 bytes" := rfl

/-- Witness for `classify_total_of_length_ge8` at a concrete 8-byte buffer. -/
theorem classify_total_of_length_ge8_witness :
    (classifyFormat (List.replicate 8 0)).isOk = true :=
  classify_total_of_length_ge8.1 (List.replicate 8 0) (by decide)

/-! ## C9: trailing bytes beyond the last complete 512-byte block -/

theorem uf2blocks_take (buf : List Nat) :
    uf2blocks (buf.take (512 * (buf.length / 512))) = uf2blocks buf := by
  unfold uf2blocks
  have hlen : (buf.take (512 * (buf.length / 512))).length = 512 * (buf.length / 512) := by
    rw [List.length_take]
    exact Nat.min_eq_left (Nat.mul_div_le buf.length 512)
  rw [hlen]
  have hq : 512 * (buf.length / 512) / 512 = buf.length / 512 := by
    omega
  rw [hq]
  apply List.map_congr_left
  intro i hi
  rw [List.mem_range] at hi
  have h1 : (buf.take (512 * (buf.length / 512))).drop (512 * i) =
      (buf.drop (512 * i)).take (512 * (buf.length / 512) - 512 * i) := by
    rw [List.drop_take]
  rw [h1, List.take_take]
  congr 1
  omega

/-- C9 (confirmed).  `convert_from_uf2` processes only the first
`len(buf) // 512` complete 512-byte blocks: decoding any buffer equals
decoding its truncation to `512 * (len // 512)` bytes, so the trailing
`len mod 512` bytes are ignored — they never cause an error and never
affect the decoded output, the start address, or any other component of
the decoder state. -/
theorem decode_ignores_trailing_bytes (fid a0 : Nat) (buf : List Nat) :
    convert_from_uf2 fid a0 buf =
      convert_from_uf2 fid a0 (buf.take (512 * (buf.length / 512))) := by
  unfold convert_from_uf2
  rw [uf2blocks_take]

/-! ## C3: the padding-gap check of `convert_from_uf2` -/

theorem padLoopAux_eq_replicate {fuel p : Nat} (hle : p ≤ fuel) (h4 : p % 4 = 0) :
    padLoopAux p fuel = List.replicate p 0 := by
  induction fuel generalizing p with
  | zero =>
    have : p = 0 := by omega
    subst this
    rfl
  | succ fuel ih =>
    rw [padLoopAux]
    by_cases hp : 0 < p
    · rw [if_pos hp, ih (by omega) (by omega)]
      have h4le : 4 ≤ p := by omega
      rw [show p = (p - 4) + 1 + 1 + 1 + 1 by omega]
      simp [List.replicate_succ]
    · rw [if_neg hp]
      have : p = 0 := by omega
      subst this
      rfl

theorem padLoop_eq_replicate {p : Nat} (h4 : p % 4 = 0) :
    padLoop p = List.replicate p 0 :=
  padLoopAux_eq_replicate le_rfl h4

/-- C3 (confirmed).  For every block accepted by `convert_from_uf2`'s loop
(valid start magics, NO-flash bit clear, `payloadLen ≤ 476`), the step
fails fatally if and only if the gap `targetAddr - cursor` (`stepGap`,
with the cursor already reset to `targetAddr` when the reset branch ran)
is negative, exceeds 10 MiB, or is not a multiple of 4; otherwise the step
appends exactly `gap` zero bytes to the output and then the block's
payload exactly when it passes the family filter.  (The "emitted bytes"
part is stated away from the one final-block case in which the
multi-family wipe discards the whole accumulated output, which is claim
C2's separately specified behaviour.) -/
theorem gap_check_characterisation (fid : Nat) (s : UF2DecState)
    (block : List Nat) (isLast : Bool)
    (h0 : hdField block 0 = UF2_MAGIC_START0)
    (h1 : hdField block 1 = UF2_MAGIC_START1)
    (hskip : hdField block 2 &&& 1 = 0)
    (hlen : hdField block 4 ≤ 476) :
    ((∃ e, processBlock fid s block isLast = .error e) ↔
      (stepGap s block < 0 ∨ 10 * 1024 * 1024 < stepGap s block ∨
        stepGap s block % 4 ≠ 0)) ∧
    (∀ s', processBlock fid s block isLast = .ok s' →
      ¬(isLast = true ∧ fid = 0 ∧ 1 < s'.families_found.length) →
      s'.outp = s.outp ++ List.replicate (stepGap s block).toNat 0 ++
        (if fid = 0 ∨ (blockTagged block ∧ fid = hdField block 7) then
          (block.drop 32).take (hdField block 4) else [])) := by
  have hmagic : ¬¬(hdField block 0 = UF2_MAGIC_START0 ∧
      hdField block 1 = UF2_MAGIC_START1) := by simp [h0, h1]
  have hskip' : ¬(hdField block 2 &&& 1 ≠ 0) := by simp [hskip]
  have hlen' : ¬(476 < hdField block 4) := by omega
  constructor
  · constructor
    · rintro ⟨e, he⟩
      by_contra hgap
      push_neg at hgap
      obtain ⟨hg0, hg10, hg4⟩ := hgap
      simp only [processBlock] at he
      rw [if_neg hmagic, if_neg hskip', if_neg hlen',
        if_neg (by omega : ¬stepGap s block < 0),
        if_neg (by omega : ¬10 * 1024 * 1024 < stepGap s block),
        if_neg (by simp [hg4] : ¬stepGap s block % 4 ≠ 0)] at he
      repeat'
        first
        | exact Except.noConfusion he
        | split at he
    · intro hgap
      simp only [processBlock]
      rw [if_neg hmagic, if_neg hskip', if_neg hlen']
      by_cases hg0 : stepGap s block < 0
      · rw [if_pos hg0]; exact ⟨_, rfl⟩
      · rw [if_neg hg0]
        by_cases hg10 : 10 * 1024 * 1024 < stepGap s block
        · rw [if_pos hg10]; exact ⟨_, rfl⟩
        · rw [if_neg hg10]
          have hg4 : stepGap s block % 4 ≠ 0 := by
            rcases hgap with h | h | h
            · omega
            · omega
            · exact h
          rw [if_pos hg4]; exact ⟨_, rfl⟩
  · intro s' hok hnw
    simp only [processBlock] at hok
    rw [if_neg hmagic, if_neg hskip', if_neg hlen'] at hok
    by_cases hg0 : stepGap s block < 0
    · rw [if_pos hg0] at hok; exact Except.noConfusion hok
    rw [if_neg hg0] at hok
    by_cases hg10 : 10 * 1024 * 1024 < stepGap s block
    · rw [if_pos hg10] at hok; exact Except.noConfusion hok
    rw [if_neg hg10] at hok
    by_cases hg4 : stepGap s block % 4 ≠ 0
    · rw [if_pos hg4] at hok; exact Except.noConfusion hok
    rw [if_neg hg4] at hok
    have hpad : padLoop (stepGap s block).toNat =
        List.replicate (stepGap s block).toNat 0 := by
      apply padLoop_eq_replicate
      omega
    have houtp : ∀ hs : UF2DecState,
        hs.outp = (if fid = 0 ∨ (blockTagged block ∧ fid = hdField block 7) then
            s.outp ++ padLoop (stepGap s block).toNat ++
              (block.drop 32).take (hdField block 4)
          else s.outp ++ padLoop (stepGap s block).toNat) →
        hs.outp = s.outp ++ List.replicate (stepGap s block).toNat 0 ++
          (if fid = 0 ∨ (blockTagged block ∧ fid = hdField block 7) then
            (block.drop 32).take (hdField block 4) else []) := by
      intro hs h
      by_cases hpc : (fid = 0 ∨ (blockTagged block ∧ fid = hdField block 7))
      · rw [if_pos hpc] at h ⊢
        rw [h, hpad, List.append_assoc]
      · rw [if_neg hpc] at h ⊢
        rw [h, hpad, List.append_nil]
    cases isLast with
    | false =>
      simp only [Bool.false_eq_true, if_false] at hok
      cases hok
      exact houtp _ rfl
    | true =>
      simp only [if_true] at hok
      by_cases hw : (1 < (if blockTagged block then
          insertMin s.families_found (hdField block 7) (hdField block 3)
        else s.families_found).length ∧ fid = 0)
      · rw [if_pos hw] at hok
        exfalso
        apply hnw
        refine ⟨rfl, hw.2, ?_⟩
        have hfams : s'.families_found =
            (if blockTagged block then
              insertMin s.families_found (hdField block 7) (hdField block 3)
            else s.families_found) := by
          cases hok
          rfl
        rw [hfams]
        exact hw.1
      · rw [if_neg hw] at hok
        cases hok
        exact houtp _ rfl

/-- Test fixture: a 512-byte UF2 block with the given header fields, the
payload zero-padded to 476 bytes. -/
def mkUF2Block (flags addr datalen blockno numblocks fam : Nat)
    (payload : List Nat) : List Nat :=
  le32 UF2_MAGIC_START0 ++ le32 UF2_MAGIC_START1 ++ le32 flags ++ le32 addr ++
    le32 datalen ++ le32 blockno ++ le32 numblocks ++ le32 fam ++
    payload ++ List.replicate (476 - payload.length) 0 ++ le32 UF2_MAGIC_END

/-- Witness fixture for C3: decoder state with cursor 100 and one byte of
prior output. -/
def gapWitnessState : UF2DecState :=
  { curraddr := some 100, currfamilyid := none, families_found := [],
    prev_flag := none, all_flags_same := true, outp := [5], appstartaddr := 7 }

/-- Witness fixture for C3: an untagged block at address 108 with a 4-byte
payload, giving a gap of 8. -/
def gapWitnessBlock : List Nat := mkUF2Block 0 108 4 0 1 0 [1, 2, 3, 4]

/-- The state after the C3 witness step. -/
def gapWitnessResult : UF2DecState :=
  { curraddr := some 112, currfamilyid := none, families_found := [],
    prev_flag := some 0, all_flags_same := true,
    outp := [5, 0, 0, 0, 0, 0, 0, 0, 0, 1, 2, 3, 4], appstartaddr := 7 }

/-- Witness for `gap_check_characterisation`: at the concrete fixtures the
step succeeds and emits exactly 8 zero bytes between the prior output and
the payload. -/
theorem gap_check_characterisation_witness :
    processBlock 0 gapWitnessState gapWitnessBlock false =
      .ok gapWitnessResult ∧
    gapWitnessResult.outp = [5, 0, 0, 0, 0, 0, 0, 0, 0, 1, 2, 3, 4] := by
  refine ⟨rfl, ?_⟩
  have h := (gap_check_characterisation 0 gapWitnessState gapWitnessBlock false
    (by decide) (by decide) (by decide) (by decide)).2 gapWitnessResult
    rfl (by decide)
  exact h.trans (by decide)

/-! ## C2: the multi-family no-filter wipe -/

theorem processBlocks_wipe (bs : List (List Nat)) :
    ∀ (s r : UF2DecState) (b : List Nat),
    processBlocks 0 s (bs ++ [b]) = .ok r →
    hdField b 0 = UF2_MAGIC_START0 →
    hdField b 1 = UF2_MAGIC_START1 →
    hdField b 2 &&& 1 = 0 →
    1 < r.families_found.length →
    r.outp = [] ∧ r.appstartaddr = 0 := by
  induction bs with
  | nil =>
    intro s r b hok h0 h1 hskip hfam
    have hmagic : ¬¬(hdField b 0 = UF2_MAGIC_START0 ∧
        hdField b 1 = UF2_MAGIC_START1) := by simp [h0, h1]
    have hskip' : ¬(hdField b 2 &&& 1 ≠ 0) := by simp [hskip]
    simp only [List.nil_append, processBlocks] at hok
    simp only [processBlock] at hok
    rw [if_neg hmagic, if_neg hskip'] at hok
    by_cases hdl : 476 < hdField b 4
    · rw [if_pos hdl] at hok; exact Except.noConfusion hok
    rw [if_neg hdl] at hok
    by_cases hg0 : stepGap s b < 0
    · rw [if_pos hg0] at hok; exact Except.noConfusion hok
    rw [if_neg hg0] at hok
    by_cases hg10 : 10 * 1024 * 1024 < stepGap s b
    · rw [if_pos hg10] at hok; exact Except.noConfusion hok
    rw [if_neg hg10] at hok
    by_cases hg4 : stepGap s b % 4 ≠ 0
    · rw [if_pos hg4] at hok; exact Except.noConfusion hok
    rw [if_neg hg4] at hok
    rw [if_pos (trivial : True)] at hok
    by_cases hw : (1 < (if blockTagged b then
        insertMin s.families_found (hdField b 7) (hdField b 3)
      else s.families_found).length ∧ True)
    · rw [if_pos hw] at hok
      cases hok
      exact ⟨rfl, rfl⟩
    · rw [if_neg hw] at hok
      exfalso
      have hfams : r.families_found =
          (if blockTagged b then
            insertMin s.families_found (hdField b 7) (hdField b 3)
          else s.families_found) := by
        cases hok
        rfl
      rw [hfams] at hfam
      exact hw ⟨hfam, trivial⟩
  | cons b2 bs ih =>
    intro s r b hok h0 h1 hskip hfam
    rcases hsplit : bs ++ [b] with _ | ⟨c, cs⟩
    · exact absurd hsplit (by simp)
    rw [List.cons_append, hsplit, processBlocks] at hok
    cases hpb : processBlock 0 s b2 false with
    | error e => rw [hpb] at hok; exact Except.noConfusion hok
    | ok s2 =>
      rw [hpb] at hok
      simp only [Bind.bind, Except.bind] at hok
      rw [← hsplit] at hok
      exact ih s2 r b hok h0 h1 hskip hfam

theorem uf2blocks_eq_append (buf : List Nat) (h : 512 ≤ buf.length) :
    uf2blocks buf =
      ((List.range (buf.length / 512 - 1)).map
        fun i => (buf.drop (512 * i)).take 512) ++
      [(buf.drop (512 * (buf.length / 512 - 1))).take 512] := by
  unfold uf2blocks
  have hn : buf.length / 512 = (buf.length / 512 - 1) + 1 := by omega
  rw [hn, List.range_succ, List.map_append, List.map_singleton]
  simp

/-- C2 (amended).  If `convert_from_uf2` with no family filter succeeds and
its final block — `buf[512*(numblocks-1) : 512*numblocks]` — is itself
processed (valid start magics and NO-flash bit clear, so the loop does not
`continue` past the end-of-input summary), then the observation of more
than one distinct family ID forces the empty output and start address 0.
The original claim asserts this for *every* buffer in which two distinct
families are observed; that fails when the final block is skipped, because
the wipe is executed inside the loop body only on the iteration
`blockno == numblocks - 1`, after the `continue` guards — refuted by
`multi_family_wipe_skipped_last_block`. -/
theorem multi_family_no_filter_empties_output (a0 : Nat) (buf : List Nat)
    (r : UF2DecState)
    (hok : convert_from_uf2 0 a0 buf = .ok r)
    (hlen : 512 ≤ buf.length)
    (h0 : hdField ((buf.drop (512 * (buf.length / 512 - 1))).take 512) 0 =
      UF2_MAGIC_START0)
    (h1 : hdField ((buf.drop (512 * (buf.length / 512 - 1))).take 512) 1 =
      UF2_MAGIC_START1)
    (hnf : hdField ((buf.drop (512 * (buf.length / 512 - 1))).take 512) 2 &&& 1 = 0)
    (hfam : 1 < r.families_found.length) :
    r.outp = [] ∧ r.appstartaddr = 0 := by
  unfold convert_from_uf2 at hok
  rw [uf2blocks_eq_append buf hlen] at hok
  exact processBlocks_wipe _ _ _ _ hok h0 h1 hnf hfam

/-- C2 counterexample fixture: two valid blocks tagged with distinct
families (5 and 7), followed by a block whose NO-flash bit is set — the
loop skips the final block, so the end-of-input wipe never runs. -/
def c2SkipBuf : List Nat :=
  mkUF2Block 0x2000 0 4 0 3 5 [1, 2, 3, 4] ++
    mkUF2Block 0x2000 8 4 1 3 7 [9, 9, 9, 9] ++
    mkUF2Block 1 0 0 2 3 0 []

set_option maxRecDepth 100000 in
/-- C2 counterexample: `c2SkipBuf` carries blocks tagged with two distinct
family IDs (the result's family summary has two entries), yet decoding with
no filter returns the two payloads and start address 8 — not the empty
image with start address 0 that the claim asserts for every such buffer. -/
theorem multi_family_wipe_skipped_last_block :
    (convert_from_uf2 0 7 c2SkipBuf).map
      (fun s => (s.outp, s.appstartaddr, s.families_found)) =
    .ok ([1, 2, 3, 4, 9, 9, 9, 9], 8, [(5, 0), (7, 8)]) := rfl

/-- C2 witness fixture: the synthetic 2-block UF2 with two distinct family
tags from the claim. -/
def c2TwoFamilyBuf : List Nat :=
  mkUF2Block 0x2000 0 4 0 2 5 [1, 2, 3, 4] ++
    mkUF2Block 0x2000 8 4 1 2 7 [9, 9, 9, 9]

/-- The decoder state after decoding `c2TwoFamilyBuf` with no filter. -/
def c2TwoFamilyResult : UF2DecState :=
  { curraddr := some 12, currfamilyid := some 7,
    families_found := [(5, 0), (7, 8)], prev_flag := some 0x2000,
    all_flags_same := true, outp := [], appstartaddr := 0 }

set_option maxRecDepth 100000 in
/-- Witness for `multi_family_no_filter_empties_output`: the 2-block
two-family buffer decodes (no filter) to the empty image with start
address 0. -/
theorem multi_family_no_filter_empties_output_witness :
    convert_from_uf2 0 7 c2TwoFamilyBuf = .ok c2TwoFamilyResult ∧
    c2TwoFamilyResult.outp = [] ∧ c2TwoFamilyResult.appstartaddr = 0 :=
  ⟨rfl, multi_family_no_filter_empties_output 7 c2TwoFamilyBuf
    c2TwoFamilyResult rfl (by decide) (by decide) (by decide) (by decide)
    (by decide)⟩

/-! ## C7: decoding well-formed, address-ordered buffers never fails -/

/-- The declarative in-order condition on a block sequence relative to a
running cursor: skipped (NO-flash) blocks leave the cursor unchanged;
every other block's target address must not precede the cursor, exceed it
by more than 10 MiB, or by a non-multiple of 4, and the cursor advances to
`targetAddr + payloadLen`. -/
def gapsOk : Option Nat → List (List Nat) → Bool
  | _, [] => true
  | c, b :: rest =>
    if hdField b 2 &&& 1 ≠ 0 then gapsOk c rest
    else
      (match c with
       | none => true
       | some cv =>
         decide (cv ≤ hdField b 3) &&
           decide (hdField b 3 - cv ≤ 10 * 1024 * 1024) &&
           decide ((hdField b 3 - cv) % 4 = 0)) &&
      gapsOk (some (hdField b 3 + hdField b 4)) rest

theorem processBlock_skip (fid : Nat) (s : UF2DecState) (b : List Nat)
    (isLast : Bool) (h0 : hdField b 0 = UF2_MAGIC_START0)
    (h1 : hdField b 1 = UF2_MAGIC_START1)
    (hsk : hdField b 2 &&& 1 ≠ 0) :
    processBlock fid s b isLast = .ok s := by
  unfold processBlock
  rw [if_neg (by simp [h0, h1]), if_pos hsk]

theorem processBlock_ok_of_gaps (fid : Nat) (s : UF2DecState) (b : List Nat)
    (isLast : Bool) (h0 : hdField b 0 = UF2_MAGIC_START0)
    (h1 : hdField b 1 = UF2_MAGIC_START1)
    (hsk : hdField b 2 &&& 1 = 0) (hdl : hdField b 4 ≤ 476)
    (hgap : ∀ cv, s.curraddr = some cv →
      cv ≤ hdField b 3 ∧ hdField b 3 - cv ≤ 10 * 1024 * 1024 ∧
        (hdField b 3 - cv) % 4 = 0) :
    ∃ r, processBlock fid s b isLast = .ok r ∧
      r.curraddr = some (hdField b 3 + hdField b 4) := by
  have hg : 0 ≤ stepGap s b ∧ stepGap s b ≤ 10 * 1024 * 1024 ∧
      stepGap s b % 4 = 0 := by
    unfold stepGap stepCursor
    by_cases hr : resetTriggered s b = true
    · rw [if_pos hr]
      omega
    · rw [if_neg hr]
      cases hc : s.curraddr with
      | none =>
        exfalso
        apply hr
        unfold resetTriggered
        simp [hc]
      | some cv =>
        obtain ⟨hle, hub, hm4⟩ := hgap cv hc
        simp only [hc, Option.getD_some]
        omega
  unfold processBlock
  rw [if_neg (by simp [h0, h1]), if_neg (by simp [hsk]), if_neg (by omega),
    if_neg (by omega : ¬stepGap s b < 0),
    if_neg (by omega : ¬10 * 1024 * 1024 < stepGap s b),
    if_neg (by omega : ¬stepGap s b % 4 ≠ 0)]
  cases isLast with
  | false => exact ⟨_, rfl, rfl⟩
  | true =>
    rw [if_pos (rfl : (true : Bool) = true)]
    by_cases hw : (1 < (if blockTagged b then
        insertMin s.families_found (hdField b 7) (hdField b 3)
      else s.families_found).length ∧ fid = 0)
    · rw [if_pos hw]
      exact ⟨_, rfl, rfl⟩
    · rw [if_neg hw]
      exact ⟨_, rfl, rfl⟩

theorem processBlocks_ok_of_gapsOk (fid : Nat) :
    ∀ (bs : List (List Nat)) (s : UF2DecState),
    (∀ b ∈ bs, hdField b 0 = UF2_MAGIC_START0 ∧
      hdField b 1 = UF2_MAGIC_START1 ∧ hdField b 4 ≤ 476) →
    gapsOk s.curraddr bs = true →
    ∃ r, processBlocks fid s bs = .ok r := by
  intro bs
  induction bs with
  | nil => exact fun s _ _ => ⟨s, rfl⟩
  | cons b rest ih =>
    intro s hwf hord
    obtain ⟨hb0, hb1, hb4⟩ := hwf b (by simp)
    have hwfr : ∀ b2 ∈ rest, hdField b2 0 = UF2_MAGIC_START0 ∧
        hdField b2 1 = UF2_MAGIC_START1 ∧ hdField b2 4 ≤ 476 :=
      fun b2 hb2 => hwf b2 (by simp [hb2])
    unfold gapsOk at hord
    by_cases hsk : hdField b 2 &&& 1 ≠ 0
    · rw [if_pos hsk] at hord
      cases rest with
      | nil =>
        exact ⟨s, by
          rw [processBlocks, processBlock_skip fid s b true hb0 hb1 hsk]⟩
      | cons b2 rest2 =>
        obtain ⟨r, hr⟩ := ih s hwfr hord
        refine ⟨r, ?_⟩
        rw [processBlocks, processBlock_skip fid s b false hb0 hb1 hsk]
        simpa [Bind.bind, Except.bind] using hr
    · rw [if_neg hsk] at hord
      push_neg at hsk
      rw [Bool.and_eq_true] at hord
      obtain ⟨hgap, hord2⟩ := hord
      have hgap2 : ∀ cv, s.curraddr = some cv →
          cv ≤ hdField b 3 ∧ hdField b 3 - cv ≤ 10 * 1024 * 1024 ∧
            (hdField b 3 - cv) % 4 = 0 := by
        intro cv hcv
        rw [hcv] at hgap
        simp only [Bool.and_eq_true, decide_eq_true_eq] at hgap
        exact ⟨hgap.1.1, hgap.1.2, hgap.2⟩
      cases rest with
      | nil =>
        obtain ⟨r1, hr1, hc1⟩ := processBlock_ok_of_gaps fid s b true
          hb0 hb1 hsk hb4 hgap2
        exact ⟨r1, by rw [processBlocks]; exact hr1⟩
      | cons b2 rest2 =>
        obtain ⟨r1, hr1, hc1⟩ := processBlock_ok_of_gaps fid s b false
          hb0 hb1 hsk hb4 hgap2
        obtain ⟨r, hr⟩ := ih r1 hwfr (by rw [hc1]; exact hord2)
        refine ⟨r, ?_⟩
        rw [processBlocks, hr1]
        simpa [Bind.bind, Except.bind] using hr

/-- C7 (amended).  For every well-formed UF2 buffer (every 512-byte block
slice carries valid start magics and `payloadLen ≤ 476`) whose
family-tagged blocks all carry the same family ID, and whose block
addresses are in order relative to the running cursor (`gapsOk`: every
non-skipped block's target address is at least the cursor and exceeds it
by a multiple of 4 of at most 10 MiB), `convert_from_uf2` never fails —
under any family filter.  Success entails that every computed padding gap
passed the decoder's own checks, i.e. was a non-negative multiple of 4.
The original claim omits the address-ordering condition and is refuted by
`uf2_decode_fails_out_of_order`: a well-formed homogeneous buffer whose
second block's address precedes the cursor makes the padding negative and
decoding aborts. -/
theorem wellformed_ordered_decode_succeeds (fid a0 F : Nat) (buf : List Nat)
    (hwf : ∀ b ∈ uf2blocks buf, hdField b 0 = UF2_MAGIC_START0 ∧
      hdField b 1 = UF2_MAGIC_START1 ∧ hdField b 4 ≤ 476)
    (hhom : ∀ b ∈ uf2blocks buf, blockTagged b → hdField b 7 = F)
    (hord : gapsOk none (uf2blocks buf) = true) :
    ∃ r, convert_from_uf2 fid a0 buf = .ok r := by
  unfold convert_from_uf2
  exact processBlocks_ok_of_gapsOk fid (uf2blocks buf) _ hwf hord

/-- C7 counterexample fixture: two untagged blocks with valid magics and
zero-length payloads (so the buffer is well-formed in the claim's sense,
and trivially family-homogeneous), at addresses 4 and then 0. -/
def c7OutOfOrderBuf : List Nat :=
  mkUF2Block 0 4 0 0 2 0 [] ++ mkUF2Block 0 0 0 1 2 0 []

set_option maxRecDepth 100000 in
/-- C7 counterexample: `c7OutOfOrderBuf` is 1024 bytes of well-formed,
family-homogeneous UF2 (valid magics, `payloadLen = 0 ≤ 476`, no tagged
block), yet decoding fails — the second block's target address 0 lies
before the cursor 4, making the padding negative.  So well-formedness plus
homogeneous tagging alone do not guarantee that decoding never fails. -/
theorem uf2_decode_fails_out_of_order :
    convert_from_uf2 0 0x2000 c7OutOfOrderBuf = .error "Block out of order" ∧
    c7OutOfOrderBuf.length = 1024 := ⟨rfl, rfl⟩

/-- C7 witness fixture: two blocks tagged with family 5, addresses 0 and 8
with a 4-byte payload each, so the second gap is 4. -/
def c7WitnessBuf : List Nat :=
  mkUF2Block 0x2000 0 4 0 2 5 [1, 2, 3, 4] ++
    mkUF2Block 0x2000 8 4 1 2 5 [9, 9, 9, 9]

set_option maxRecDepth 100000 in
/-- Witness for `wellformed_ordered_decode_succeeds` at `c7WitnessBuf`. -/
theorem wellformed_ordered_decode_succeeds_witness :
    (convert_from_uf2 5 0x2000 c7WitnessBuf).isOk = true := by
  obtain ⟨r, hr⟩ := wellformed_ordered_decode_succeeds 5 0x2000 5 c7WitnessBuf
    (by decide) (by decide) (by decide)
  rw [hr]
  rfl

/-! ## C1: encode/decode round trip -/

/-- The `blockno`-th 512-byte block produced by `convert_to_uf2`. -/
def encBlock (fid a0 : Nat) (content : List Nat) (numblocks blockno : Nat) :
    List Nat :=
  let ptr := 256 * blockno
  let chunk := (content.drop ptr).take 256
  le32 UF2_MAGIC_START0 ++ (le32 UF2_MAGIC_START1 ++
    (le32 (if fid ≠ 0 then 0x2000 else 0) ++ (le32 (ptr + a0) ++ (le32 256 ++
    (le32 blockno ++ (le32 numblocks ++ (le32 fid ++
    ((chunk ++ List.replicate (256 - chunk.length) 0) ++
    (List.replicate 220 0 ++ le32 UF2_MAGIC_END)))))))))

theorem convert_to_uf2_eq_flatten (fid a0 : Nat) (content : List Nat) :
    convert_to_uf2 fid a0 content =
      List.flatten ((List.range ((content.length + 255) / 256)).map
        (encBlock fid a0 content ((content.length + 255) / 256))) := rfl

theorem hdField_le32_head (a : Nat) (l : List Nat) :
    hdField (le32 a ++ l) 0 = a % 4294967296 := by
  unfold hdField
  rw [Nat.mul_zero, List.drop_zero]
  exact read32_le32_append a l

theorem hdField_le32_cons (a : Nat) (l : List Nat) (k : Nat) :
    hdField (le32 a ++ l) (k + 1) = hdField l k := by
  show read32 ((le32 a ++ l).drop (4 * (k + 1))) = read32 (l.drop (4 * k))
  have h4 : 4 * (k + 1) = 4 * k + 1 + 1 + 1 + 1 := by ring
  simp only [le32, List.cons_append, List.nil_append, h4,
    List.drop_succ_cons]

theorem chunk_length_le (content : List Nat) (ptr : Nat) :
    ((content.drop ptr).take 256).length ≤ 256 := by
  simp [List.length_take]

theorem encBlock_length (fid a0 : Nat) (content : List Nat) (nb i : Nat) :
    (encBlock fid a0 content nb i).length = 512 := by
  have h := chunk_length_le content (256 * i)
  simp only [encBlock, List.length_append, le32_length, List.length_replicate]
  omega

theorem hdField_encBlock_0 (fid a0 : Nat) (content : List Nat) (nb i : Nat) :
    hdField (encBlock fid a0 content nb i) 0 = UF2_MAGIC_START0 := by
  rw [encBlock, hdField_le32_head]
  rfl

theorem hdField_encBlock_1 (fid a0 : Nat) (content : List Nat) (nb i : Nat) :
    hdField (encBlock fid a0 content nb i) 1 = UF2_MAGIC_START1 := by
  rw [encBlock, hdField_le32_cons, hdField_le32_head]
  rfl

theorem hdField_encBlock_2 (fid a0 : Nat) (content : List Nat) (nb i : Nat) :
    hdField (encBlock fid a0 content nb i) 2 =
      (if fid ≠ 0 then 0x2000 else 0) := by
  rw [encBlock, hdField_le32_cons, hdField_le32_cons, hdField_le32_head]
  by_cases h : fid ≠ 0 <;> simp [h]

theorem hdField_encBlock_3 (fid a0 : Nat) (content : List Nat) (nb i : Nat) :
    hdField (encBlock fid a0 content nb i) 3 =
      (256 * i + a0) % 4294967296 := by
  rw [encBlock, hdField_le32_cons, hdField_le32_cons, hdField_le32_cons,
    hdField_le32_head]

theorem hdField_encBlock_4 (fid a0 : Nat) (content : List Nat) (nb i : Nat) :
    hdField (encBlock fid a0 content nb i) 4 = 256 := by
  rw [encBlock, hdField_le32_cons, hdField_le32_cons, hdField_le32_cons,
    hdField_le32_cons, hdField_le32_head]

theorem hdField_encBlock_7 (fid a0 : Nat) (content : List Nat) (nb i : Nat) :
    hdField (encBlock fid a0 content nb i) 7 = fid % 4294967296 := by
  rw [encBlock, hdField_le32_cons, hdField_le32_cons, hdField_le32_cons,
    hdField_le32_cons, hdField_le32_cons, hdField_le32_cons,
    hdField_le32_cons, hdField_le32_head]

theorem encBlock_drop32 (fid a0 : Nat) (content : List Nat) (nb i : Nat) :
    (encBlock fid a0 content nb i).drop 32 =
      ((content.drop (256 * i)).take 256 ++
        List.replicate (256 - ((content.drop (256 * i)).take 256).length) 0) ++
      (List.replicate 220 0 ++ le32 UF2_MAGIC_END) := by
  simp only [encBlock, le32, List.cons_append, List.nil_append]
  rfl

theorem encBlock_payload (fid a0 : Nat) (content : List Nat) (nb i : Nat) :
    ((encBlock fid a0 content nb i).drop 32).take 256 =
      (content.drop (256 * i)).take 256 ++
        List.replicate (256 - ((content.drop (256 * i)).take 256).length) 0 := by
  rw [encBlock_drop32]
  have h := chunk_length_le content (256 * i)
  have hlen : ((content.drop (256 * i)).take 256 ++
      List.replicate (256 - ((content.drop (256 * i)).take 256).length)
        0).length = 256 := by
    rw [List.length_append, List.length_replicate]
    omega
  rw [List.take_left' hlen]

theorem uf2blocks_cons (b rest : List Nat) (hb : b.length = 512) :
    uf2blocks (b ++ rest) = b :: uf2blocks rest := by
  unfold uf2blocks
  have hlen : (b ++ rest).length = 512 + rest.length := by simp [hb]
  have hq : (b ++ rest).length / 512 = rest.length / 512 + 1 := by
    rw [hlen]; omega
  rw [hq, List.range_succ_eq_map]
  simp only [List.map_cons, Nat.mul_zero, List.drop_zero, List.map_map]
  congr 1
  · rw [← hb, List.take_left]
  · apply List.map_congr_left
    intro i _
    simp only [Function.comp_apply]
    congr 1
    have : 512 * (i + 1) = b.length + 512 * i := by rw [hb]; ring
    rw [this, List.drop_append]

theorem uf2blocks_flatten (bls : List (List Nat))
    (h : ∀ b ∈ bls, b.length = 512) : uf2blocks bls.flatten = bls := by
  induction bls with
  | nil => rfl
  | cons b rest ih =>
    rw [List.flatten_cons, uf2blocks_cons b rest.flatten (h b (by simp)),
      ih (fun b2 hb2 => h b2 (by simp [hb2]))]

/-- The decoder state after processing the first `j` blocks produced by
`convert_to_uf2 fid a0 content` under a matching filter (`j = 0` is the
initial state). -/
def encState (fid a0 : Nat) (content : List Nat) (j : Nat) : UF2DecState :=
  if j = 0 then
    { curraddr := none, currfamilyid := none, families_found := [],
      prev_flag := none, all_flags_same := true, outp := [],
      appstartaddr := a0 }
  else
    { curraddr := some (a0 + 256 * j), currfamilyid := some fid,
      families_found := if fid ≠ 0 then [(fid, a0)] else [],
      prev_flag := some (if fid ≠ 0 then 0x2000 else 0),
      all_flags_same := true,
      outp := content.take (256 * j) ++
        List.replicate (256 * j - min (256 * j) content.length) 0,
      appstartaddr := a0 }

theorem outp_step (content : List Nat) (j : Nat)
    (hj : 256 * j ≤ content.length) :
    (content.take (256 * j) ++
        List.replicate (256 * j - min (256 * j) content.length) 0) ++
      ((content.drop (256 * j)).take 256 ++
        List.replicate (256 - ((content.drop (256 * j)).take 256).length) 0) =
    content.take (256 * (j + 1)) ++
      List.replicate (256 * (j + 1) - min (256 * (j + 1)) content.length) 0 := by
  have hmin : min (256 * j) content.length = 256 * j := by omega
  rw [hmin, Nat.sub_self, List.replicate_zero, List.append_nil]
  have htake : content.take (256 * (j + 1)) =
      content.take (256 * j) ++ (content.drop (256 * j)).take 256 := by
    rw [show 256 * (j + 1) = 256 * j + 256 by ring, List.take_add]
  rw [htake, List.append_assoc]
  congr 2
  rw [List.length_take, List.length_drop]
  rcases le_or_lt (256 * (j + 1)) content.length with hc | hc
  · rw [Nat.min_eq_left (by omega), Nat.min_eq_left (by omega)]
    simp
  · rw [Nat.min_eq_right (by omega), Nat.min_eq_right (by omega)]
    congr 1
    omega

theorem processBlock_encBlock (g fid a0 : Nat) (content : List Nat)
    (isLast : Bool) (j : Nat)
    (hfid : fid < 4294967296) (hbound : a0 + content.length ≤ 4294967296)
    (hg : g = 0 ∨ g = fid)
    (hj : j < (content.length + 255) / 256) :
    processBlock g (encState fid a0 content j)
      (encBlock fid a0 content ((content.length + 255) / 256) j) isLast =
      .ok (encState fid a0 content (j + 1)) := by
  have hlen1 : 1 ≤ content.length := by omega
  have h256j : 256 * j + 1 ≤ content.length := by omega
  have haddr : 256 * j + a0 < 4294967296 := by omega
  have hmod : (256 * j + a0) % 4294967296 = 256 * j + a0 :=
    Nat.mod_eq_of_lt haddr
  have hfmod : fid % 4294967296 = fid := Nat.mod_eq_of_lt hfid
  set nb := (content.length + 255) / 256 with hnb
  set s := encState fid a0 content j with hs
  set b := encBlock fid a0 content nb j with hb
  have h0 : hdField b 0 = UF2_MAGIC_START0 := hdField_encBlock_0 ..
  have h1 : hdField b 1 = UF2_MAGIC_START1 := hdField_encBlock_1 ..
  have h2 : hdField b 2 = (if fid ≠ 0 then 0x2000 else 0) :=
    hdField_encBlock_2 ..
  have h3 : hdField b 3 = 256 * j + a0 := by
    rw [hb, hdField_encBlock_3, hmod]
  have h4 : hdField b 4 = 256 := hdField_encBlock_4 ..
  have h7 : hdField b 7 = fid := by rw [hb, hdField_encBlock_7, hfmod]
  have htag : blockTagged b = decide (fid ≠ 0) := by
    unfold blockTagged
    rw [h2]
    by_cases hf : fid = 0 <;> simp [hf]
  have hreset : resetTriggered s b = decide (j = 0) := by
    unfold resetTriggered cfidAfterFirstIf
    by_cases hj0 : j = 0
    · subst hj0
      rw [hs]
      simp [encState]
    · rw [hs]
      simp only [encState, if_neg hj0, htag, h7]
      by_cases hf : fid = 0 <;> simp [hf, hj0]
  have hcursor : stepCursor s b = 256 * j + a0 := by
    unfold stepCursor
    rw [hreset, h3]
    by_cases hj0 : j = 0
    · subst hj0
      simp
    · rw [hs]
      simp [encState, hj0]
      ring
  have hgap : stepGap s b = 0 := by
    unfold stepGap
    rw [hcursor, h3]
    simp
  have happend : (g = 0 ∨ (blockTagged b ∧ g = hdField b 7)) := by
    rcases hg with hg | hg
    · exact Or.inl hg
    · by_cases hf : fid = 0
      · exact Or.inl (hg.trans hf)
      · exact Or.inr ⟨by simp [htag, hf], by rw [h7, hg]⟩
  unfold processBlock
  rw [if_neg (by simp [h0, h1]),
    if_neg (by rw [h2]; by_cases hf : fid = 0 <;> simp [hf]),
    if_neg (by rw [h4]; omega),
    if_neg (by rw [hgap]; omega),
    if_neg (by rw [hgap]; norm_num),
    if_neg (by rw [hgap]; norm_num)]
  have hfams : (if blockTagged b then
      insertMin s.families_found (hdField b 7) (hdField b 3)
    else s.families_found) = (if fid ≠ 0 then [(fid, a0)] else []) := by
    by_cases hf : fid = 0
    · rw [hs]
      by_cases hj0 : j = 0 <;> simp [htag, hf, encState, hj0]
    · rw [htag, if_pos (by simp [hf]), h7, h3, hs]
      by_cases hj0 : j = 0
      · simp [encState, hj0, insertMin, hf]
      · simp only [encState, if_neg hj0, if_pos hf, insertMin, if_pos rfl]
        rw [if_neg (by omega : ¬256 * j + a0 < a0)]
        simp [hf]
  have houtp : s.outp ++ padLoop (stepGap s b).toNat ++
      ((b.drop 32).take (hdField b 4)) =
      content.take (256 * (j + 1)) ++
        List.replicate (256 * (j + 1) - min (256 * (j + 1)) content.length)
          0 := by
    rw [hgap, h4, hb, encBlock_payload]
    show s.outp ++ padLoop 0 ++ _ = _
    rw [hs]
    by_cases hj0 : j = 0
    · subst hj0
      simpa [encState, padLoop, padLoopAux] using
        outp_step content 0 (by omega)
    · simpa [encState, hj0, padLoop, padLoopAux] using
        outp_step content j (by omega)
  have happ2 : (g = 0 ∨ g = hdField b 7) := by
    rcases hg with hg | hg
    · exact Or.inl hg
    · exact Or.inr (by rw [h7, hg])
  have hrec : (⟨some (hdField b 3 + hdField b 4),
      (if resetTriggered s b = true then some (hdField b 7)
        else cfidAfterFirstIf s b),
      (if blockTagged b then
          insertMin s.families_found (hdField b 7) (hdField b 3)
        else s.families_found),
      (if s.prev_flag = none then some (hdField b 2) else s.prev_flag),
      (if (if s.prev_flag = none then some (hdField b 2)
            else s.prev_flag) ≠ some (hdField b 2) then false
        else s.all_flags_same),
      (if g = 0 ∨ (blockTagged b ∧ g = hdField b 7) then
          s.outp ++ padLoop (stepGap s b).toNat ++
            ((b.drop 32).take (hdField b 4))
        else s.outp ++ padLoop (stepGap s b).toNat),
      (if resetTriggered s b = true ∧ (g = 0 ∨ g = hdField b 7) then
          hdField b 3
        else s.appstartaddr)⟩ : UF2DecState) =
      encState fid a0 content (j + 1) := by
    rw [if_pos happend]
    have hrhs : encState fid a0 content (j + 1) =
        { curraddr := some (a0 + 256 * (j + 1)), currfamilyid := some fid,
          families_found := if fid ≠ 0 then [(fid, a0)] else [],
          prev_flag := some (if fid ≠ 0 then 0x2000 else 0),
          all_flags_same := true,
          outp := content.take (256 * (j + 1)) ++
            List.replicate (256 * (j + 1) - min (256 * (j + 1))
              content.length) 0,
          appstartaddr := a0 } := by
      rw [encState, if_neg (Nat.succ_ne_zero j)]
    rw [hrhs]
    simp only [UF2DecState.mk.injEq]
    refine ⟨?_, ?_, hfams, ?_, ?_, houtp, ?_⟩
    · rw [h3, h4]
      simp only [Option.some.injEq]
      omega
    · rw [hreset]
      by_cases hj0 : j = 0
      · simp [hj0, h7]
      · simp [hj0, cfidAfterFirstIf, hs, encState]
    · by_cases hj0 : j = 0 <;> simp [hs, encState, hj0, h2]
    · by_cases hj0 : j = 0 <;> simp [hs, encState, hj0, h2]
    · rw [hreset]
      by_cases hj0 : j = 0
      · simp only [hj0, decide_True, true_and, if_pos happ2, h3]
        omega
      · simp [hj0, hs, encState]
  cases isLast with
  | true =>
    rw [if_pos rfl,
      if_neg (by rw [hfams]; by_cases hf : fid = 0 <;> simp [hf])]
    exact congrArg Except.ok hrec
  | false => exact congrArg Except.ok hrec

theorem processBlocks_encBlocks (g fid a0 : Nat) (content : List Nat)
    (hfid : fid < 4294967296) (hbound : a0 + content.length ≤ 4294967296)
    (hg : g = 0 ∨ g = fid) :
    ∀ (m j : Nat), j + m = (content.length + 255) / 256 →
    processBlocks g (encState fid a0 content j)
      ((List.range' j m).map
        (encBlock fid a0 content ((content.length + 255) / 256))) =
      .ok (encState fid a0 content ((content.length + 255) / 256)) := by
  intro m
  induction m with
  | zero =>
    intro j hj
    have hj2 : j = (content.length + 255) / 256 := by omega
    rw [show List.range' j 0 = [] from rfl, List.map_nil, processBlocks, hj2]
  | succ m ih =>
    intro j hj
    have hjlt : j < (content.length + 255) / 256 := by omega
    have hstep := processBlock_encBlock g fid a0 content
    cases m with
    | zero =>
      rw [List.range'_succ, show List.range' (j + 1) 0 = [] from rfl,
        List.map_cons, List.map_nil, processBlocks]
      rw [hstep true j hfid hbound hg hjlt]
      have hj2 : j + 1 = (content.length + 255) / 256 := by omega
      rw [hj2]
    | succ m2 =>
      rw [List.range'_succ, List.range'_succ, List.map_cons, List.map_cons,
        processBlocks]
      rw [hstep false j hfid hbound hg hjlt]
      simp only [Bind.bind, Except.bind]
      rw [← List.map_cons, ← List.range'_succ]
      exact ih (j + 1) (by omega)

/-- C1 (amended).  Encoding a flat image (`content` with 32-bit load address
`a0`, family `fid`) and decoding under a matching family filter or no
filter succeeds and reproduces the original byte sequence *zero-padded to
the next multiple of 256 bytes* (the encoder pads its last 256-byte chunk
and fixes every header `payloadLen` at 256), hence exactly the original
bytes whenever the length is a multiple of 256 (in particular for the
empty image); the start address is the original load address.  The
original claim's "reproduces the original byte sequence exactly" fails for
every image whose length is not a multiple of 256 — refuted by
`uf2_roundtrip_not_exact` on a 1-byte image. -/
theorem uf2_roundtrip_padded (g fid a0 : Nat) (content : List Nat)
    (hfid : fid < 4294967296) (hbound : a0 + content.length ≤ 4294967296)
    (hg : g = 0 ∨ g = fid) :
    ∃ r, convert_from_uf2 g a0 (convert_to_uf2 fid a0 content) = .ok r ∧
      r.outp = content ++ List.replicate
        (256 * ((content.length + 255) / 256) - content.length) 0 ∧
      r.appstartaddr = a0 ∧
      (content.length % 256 = 0 → r.outp = content) := by
  have hblocks : uf2blocks (convert_to_uf2 fid a0 content) =
      (List.range ((content.length + 255) / 256)).map
        (encBlock fid a0 content ((content.length + 255) / 256)) := by
    rw [convert_to_uf2_eq_flatten, uf2blocks_flatten]
    intro b hb
    rw [List.mem_map] at hb
    obtain ⟨i, _, hi⟩ := hb
    rw [← hi, encBlock_length]
  by_cases hnil : content.length = 0
  · have hc : content = [] := List.length_eq_zero.mp hnil
    subst hc
    refine ⟨⟨none, none, [], none, true, [], a0⟩, ?_, by rfl, by rfl,
      fun _ => by rfl⟩
    rw [show convert_to_uf2 fid a0 [] = [] from by rfl]
    rfl
  · have hnb : 1 ≤ (content.length + 255) / 256 := by omega
    refine ⟨encState fid a0 content ((content.length + 255) / 256), ?_, ?_, ?_, ?_⟩
    · unfold convert_from_uf2
      rw [hblocks, List.range_eq_range']
      have h0 : encState fid a0 content 0 =
          { curraddr := none, currfamilyid := none, families_found := [],
            prev_flag := none, all_flags_same := true, outp := [],
            appstartaddr := a0 } := rfl
      rw [← h0]
      exact processBlocks_encBlocks g fid a0 content hfid hbound hg _ 0
        (by omega)
    · rw [encState, if_neg (by omega)]
      have ht : content.take (256 * ((content.length + 255) / 256)) =
          content := List.take_of_length_le (by omega)
      rw [ht, Nat.min_eq_right (by omega)]
    · rw [encState, if_neg (by omega)]
    · intro hmod
      rw [encState, if_neg (by omega)]
      have ht : content.take (256 * ((content.length + 255) / 256)) =
          content := List.take_of_length_le (by omega)
      rw [ht, show 256 * ((content.length + 255) / 256) -
        min (256 * ((content.length + 255) / 256)) content.length = 0 by
          omega]
      simp

set_option maxRecDepth 100000 in
/-- C1 counterexample: the 1-byte image `[171]` encodes to one UF2 block
whose payload is zero-padded to 256 bytes, so decoding it back (no filter)
yields 256 bytes, not the original single byte — the round trip does not
reproduce the original byte sequence exactly. -/
theorem uf2_roundtrip_not_exact :
    (convert_from_uf2 0 0x2000 (convert_to_uf2 0 0x2000 [171])).map
      (fun s => s.outp.length) = .ok 256 := rfl

set_option maxRecDepth 100000 in
/-- Witness for `uf2_roundtrip_padded`: the 1-byte image `[171]` with
family 5 and load address `0x2000` round-trips (filter = family) to the
byte followed by 255 padding zeros, with start address `0x2000`. -/
theorem uf2_roundtrip_padded_witness :
    (convert_from_uf2 5 0x2000 (convert_to_uf2 5 0x2000 [171])).map
      (fun s => (s.outp, s.appstartaddr)) =
      .ok (171 :: List.replicate 255 0, 0x2000) := by
  obtain ⟨r, hr, ho, ha, _⟩ := uf2_roundtrip_padded 5 5 0x2000 [171]
    (by decide) (by decide) (Or.inr rfl)
  rw [hr]
  simp only [Except.map]
  rw [ho, ha]
  exact congrArg Except.ok (by decide)

/-! ## C5 and C10: hex-decoder block structure -/

/-- Collapse consecutive equal elements (the sequence of maximal runs). -/
def dedupConsec : List Nat → List Nat
  | [] => []
  | [a] => [a]
  | a :: b :: rest =>
    if a = b then dedupConsec (b :: rest) else a :: dedupConsec (b :: rest)

theorem dedupConsec_append_last (l : List Nat) (x : Nat) :
    dedupConsec (l ++ [x]) =
      if l.getLast? = some x then dedupConsec l else dedupConsec l ++ [x] := by
  induction l with
  | nil => simp [dedupConsec]
  | cons a rest ih =>
    cases rest with
    | nil =>
      by_cases hax : a = x <;> simp [dedupConsec, hax]
    | cons b rest2 =>
      rw [List.cons_append, List.cons_append]
      rw [show dedupConsec (a :: b :: (rest2 ++ [x])) =
        if a = b then dedupConsec (b :: (rest2 ++ [x]))
        else a :: dedupConsec (b :: (rest2 ++ [x])) from rfl]
      rw [show (b :: (rest2 ++ [x])) = (b :: rest2) ++ [x] from rfl, ih]
      have hlast : (a :: b :: rest2).getLast? = (b :: rest2).getLast? := by
        rw [List.getLast?_cons_cons]
      by_cases hab : a = b <;> by_cases hx : (b :: rest2).getLast? = some x <;>
        simp [dedupConsec, hab, hx, hlast]

/-- Invariant-preservation skeleton for the hex line loop: any predicate
stable under the three kinds of state update (`upper` assignment,
`appstartaddr` assignment, one data-byte write) holds for the result of
`processLines` whenever it holds initially. -/
theorem processLines_preserves (P : HexState → Prop)
    (hupper : ∀ (st : HexState) (u : Nat), P st → P { st with upper := u })
    (happ : ∀ (st : HexState) (a : Option Nat), P st →
      P { st with appstartaddr := a })
    (hdata : ∀ (st : HexState) (a v : Nat), P st →
      P { st with blocks := writeByte st.blocks a v,
                  writes := st.writes ++ [(a, v)] }) :
    ∀ (lines : List (List Char)) (st r : HexState),
      processLines st lines = .ok r → P st → P r := by
  have hwd : ∀ (data : List Nat) (st : HexState) (a : Nat), P st →
      P (writeData st a data) := by
    intro data
    induction data with
    | nil => intro st a h; exact h
    | cons v vs ih =>
      intro st a h
      rw [writeData]
      exact ih _ (a + 1) (hdata st a v h)
  intro lines
  induction lines with
  | nil =>
    intro st r hok hP
    cases hok
    exact hP
  | cons line rest ih =>
    intro st r hok hP
    cases line with
    | nil => rw [processLines] at hok; exact Except.noConfusion hok
    | cons c cs =>
      rw [processLines] at hok
      by_cases hc : c ≠ ':'
      · rw [if_pos hc] at hok
        exact ih st r hok hP
      rw [if_neg hc] at hok
      cases hpp : parsePairs cs with
      | error e => rw [hpp] at hok; exact Except.noConfusion hok
      | ok recBytes =>
        rw [hpp] at hok
        simp only [Bind.bind, Except.bind] at hok
        cases h3 : recBytes.get? 3 with
        | none => rw [h3] at hok; exact Except.noConfusion hok
        | some tp =>
          rw [h3] at hok
          simp only [] at hok
          by_cases ht4 : tp = 4
          · rw [if_pos ht4] at hok
            cases h4 : recBytes.get? 4 with
            | none => rw [h4] at hok; exact Except.noConfusion hok
            | some r4 =>
              cases h5 : recBytes.get? 5 with
              | none => rw [h4, h5] at hok; exact Except.noConfusion hok
              | some r5 =>
                rw [h4, h5] at hok
                exact ih _ r hok (hupper st _ hP)
          rw [if_neg ht4] at hok
          by_cases ht2 : tp = 2
          · rw [if_pos ht2] at hok
            cases h4 : recBytes.get? 4 with
            | none => rw [h4] at hok; exact Except.noConfusion hok
            | some r4 =>
              cases h5 : recBytes.get? 5 with
              | none => rw [h4, h5] at hok; exact Except.noConfusion hok
              | some r5 =>
                rw [h4, h5] at hok
                exact ih _ r hok (hupper st _ hP)
          rw [if_neg ht2] at hok
          by_cases ht1 : tp = 1
          · rw [if_pos ht1] at hok
            cases hok
            exact hP
          rw [if_neg ht1] at hok
          by_cases ht0 : tp = 0
          · rw [if_pos ht0] at hok
            cases h1 : recBytes.get? 1 with
            | none => rw [h1] at hok; exact Except.noConfusion hok
            | some r1 =>
              cases h2 : recBytes.get? 2 with
              | none => rw [h1, h2] at hok; exact Except.noConfusion hok
              | some r2 =>
                rw [h1, h2] at hok
                simp only [] at hok
                by_cases ha0 : st.appstartaddr = none
                · rw [if_pos ha0] at hok
                  exact ih _ r hok (hwd _ _ _ (happ st _ hP))
                · rw [if_neg ha0] at hok
                  exact ih _ r hok (hwd _ _ _ hP)
          · rw [if_neg ht0] at hok
            exact ih st r hok hP

theorem inv5_writeByte (blocks : List Block) (ws : List (Nat × Nat)) (a v : Nat)
    (h1 : (blocks.map Block.addr).reverse =
      dedupConsec (ws.map fun w => alignBase w.1))
    (h2 : blocks.head?.map Block.addr =
      (ws.map fun w => alignBase w.1).getLast?) :
    ((writeByte blocks a v).map Block.addr).reverse =
      dedupConsec ((ws ++ [(a, v)]).map fun w => alignBase w.1) ∧
    (writeByte blocks a v).head?.map Block.addr =
      ((ws ++ [(a, v)]).map fun w => alignBase w.1).getLast? := by
  rw [List.map_append, List.map_singleton, dedupConsec_append_last,
    List.getLast?_concat]
  cases blocks with
  | nil =>
    have hlast : (ws.map fun w => alignBase w.1).getLast? = none := by
      simpa using h2.symm
    have hded : dedupConsec (ws.map fun w => alignBase w.1) = [] := by
      rw [← h1]; simp
    rw [if_neg (by simp [hlast]), hded]
    constructor
    · simp only [writeByte, List.map_cons, List.map_nil, List.reverse_cons,
        List.reverse_nil, List.nil_append]
    · simp only [writeByte, List.head?_cons, Option.map_some']
  | cons b rest =>
    by_cases hb : b.addr = alignBase a
    · rw [if_pos (by rw [← h2]; simp [hb])]
      constructor
      · rw [← h1, writeByte, if_pos hb]
        simp only [List.map_cons]
      · rw [writeByte, if_pos hb]
        simp only [List.head?_cons, Option.map_some']
        rw [hb]
    · rw [if_neg (by rw [← h2]; simp [hb])]
      constructor
      · rw [← h1, writeByte, if_neg hb]
        simp only [List.map_cons, List.reverse_cons]
      · rw [writeByte, if_neg hb]
        simp only [List.head?_cons, Option.map_some']

/-- C5 (amended).  The blocks `convert_from_hex_to_uf2` creates appear in
encounter order of *maximal runs* of same-base data bytes: the list of
block addresses equals the per-byte sequence of 256-byte-aligned bases of
the data writes, with consecutive duplicates collapsed.  In particular a
new block is started exactly when an incoming byte's aligned base differs
from the block currently being filled, and blocks are numbered in
encounter order, never sorted by address.  The original claim's "output
blocks appear in first-appearance order of their aligned bases" fails when
a base is revisited after an intervening different base: the code then
starts a *new* block for the revisited base instead of placing its bytes
in first-appearance position — refuted by
`hex_blocks_realias_new_block`. -/
theorem hex_blocks_encounter_order (buf : List Char) (r : HexState)
    (h : hexToBlocks buf = .ok r) :
    r.blocks.map Block.addr =
      dedupConsec (r.writes.map fun w => alignBase w.1) := by
  unfold hexToBlocks at h
  cases hpl : processLines ⟨0, none, [], []⟩ (splitLines buf) with
  | error e => rw [hpl] at h; exact Except.noConfusion h
  | ok st =>
    rw [hpl] at h
    simp only [Except.map] at h
    cases h
    have hinv := processLines_preserves
      (fun st => (st.blocks.map Block.addr).reverse =
          dedupConsec (st.writes.map fun w => alignBase w.1) ∧
        st.blocks.head?.map Block.addr =
          (st.writes.map fun w => alignBase w.1).getLast?)
      (fun st u hP => hP) (fun st a hP => hP)
      (fun st a v hP => inv5_writeByte st.blocks st.writes a v hP.1 hP.2)
      (splitLines buf) ⟨0, none, [], []⟩ st hpl ⟨rfl, rfl⟩
    simp only []
    rw [List.map_reverse, hinv.1]

/-- C5 counterexample fixture: data records at `0x0280` (base `0x200`),
`0x0000` (base `0x000`), then `0x0200` (base `0x200` again — sharing the
first record's aligned base but at a lower address, i.e. out of monotonic
order). -/
def c5RealiasInput : List Char :=
  (":01028000AA00\n:01000000BB00\n:01020000CC00").toList

set_option maxRecDepth 100000 in
/-- C5 counterexample: on `c5RealiasInput` the block addresses come out as
`[512, 0, 512]` — base `512` first appears before base `0`, yet a block
with base `512` also appears *after* the base-`0` block (the revisit opens
a fresh block).  So the output blocks are not in first-appearance order of
their aligned bases, although the input contains two same-base data
records out of monotonic address order, as the claim requires. -/
theorem hex_blocks_realias_new_block :
    (hexToBlocks c5RealiasInput).map (fun st => st.blocks.map Block.addr) =
      .ok [512, 0, 512] := rfl

/-- C5 witness fixture: two data records sharing base `0x200`, the second
at a lower address than the first. -/
def c5WitnessInput : List Char := (":01028000AA00\n:01020000BB00").toList

/-- The hex-decoder state for `c5WitnessInput`: one block at base 512
holding both bytes. -/
def c5WitnessResult : HexState :=
  ⟨0, some 640,
    [⟨512, ((List.replicate 256 0).set 128 170).set 0 187⟩],
    [(640, 170), (512, 187)]⟩

set_option maxRecDepth 100000 in
/-- Witness for `hex_blocks_encounter_order`: both same-base records land
in the single block at base 512, matching the collapsed base sequence. -/
theorem hex_blocks_encounter_order_witness :
    hexToBlocks c5WitnessInput = .ok c5WitnessResult ∧
    c5WitnessResult.blocks.map Block.addr = [512] :=
  ⟨rfl, (hex_blocks_encounter_order c5WitnessInput c5WitnessResult
    rfl).trans (by decide)⟩

theorem Block_render_length (fid : Nat) (b : Block) (i n : Nat) :
    (Block.render fid b i n).length = 512 := by
  have h : (b.bytes.take 256).length ≤ 256 := by simp
  simp only [Block.render, List.length_append, le32_length,
    List.length_replicate]
  omega

theorem Block_render_payloadLen (fid : Nat) (b : Block) (i n : Nat) :
    ((Block.render fid b i n).drop 16).take 4 = [0, 1, 0, 0] := rfl

theorem Block_encode_ok (fid : Nat) (b : Block) (i n : Nat)
    (ha : b.addr < 2 ^ 32) (hi : i < 2 ^ 32) (hn : n < 2 ^ 32)
    (hf : fid < 2 ^ 32) :
    Block.encode fid b i n = .ok (Block.render fid b i n) := by
  rw [Block.encode, if_neg (by omega)]

theorem renderAll_length (fid n : Nat) :
    ∀ (bs : List Block) (i : Nat), (renderAll fid n i bs).length =
      512 * bs.length := by
  intro bs
  induction bs with
  | nil => intro i; rfl
  | cons b rest ih =>
    intro i
    rw [renderAll, List.length_append, Block_render_length, ih,
      List.length_cons]
    ring

theorem encodeAll_ok (fid n : Nat) (hn : n < 2 ^ 32) (hf : fid < 2 ^ 32) :
    ∀ (bs : List Block) (i : Nat), i + bs.length ≤ n →
      (∀ b ∈ bs, b.addr < 2 ^ 32) →
      encodeAll fid n i bs = .ok (renderAll fid n i bs) := by
  intro bs
  induction bs with
  | nil => intro i _ _; rfl
  | cons b rest ih =>
    intro i hle ha
    have hblen : (b :: rest).length = rest.length + 1 := by simp
    rw [encodeAll,
      Block_encode_ok fid b i n (ha b (by simp)) (by omega) hn hf]
    simp only [Bind.bind, Except.bind]
    rw [ih (i + 1) (by omega) (fun b hb => ha b (by simp [hb]))]
    rfl

theorem getD_set_cases {l : List Nat} {i k v : Nat}
    (h : (l.set i v).getD k 0 ≠ 0) : k = i ∨ l.getD k 0 ≠ 0 := by
  by_cases hk : k = i
  · exact Or.inl hk
  · right
    intro h0
    apply h
    unfold List.getD at *
    rw [List.get?_eq_getElem?, List.getElem?_set_ne (fun he => hk he.symm),
      ← List.get?_eq_getElem?]
    exact h0

theorem getD_replicate_zero (n k : Nat) :
    (List.replicate n (0 : Nat)).getD k 0 = 0 := by
  unfold List.getD
  rw [List.get?_eq_getElem?, List.getElem?_replicate]
  by_cases hk : k < n <;> simp [hk]

/-- The unwritten-positions-are-zero invariant plus "no writes, no
blocks". -/
def HexZeroInv (st : HexState) : Prop :=
  (∀ b ∈ st.blocks, ∀ k, b.bytes.getD k 0 ≠ 0 →
    ∃ w ∈ st.writes, alignBase w.1 = b.addr ∧ w.1 % 256 = k) ∧
  (st.writes = [] → st.blocks = [])

theorem inv10_writeByte (blocks : List Block) (ws : List (Nat × Nat))
    (a v : Nat)
    (h1 : ∀ b ∈ blocks, ∀ k, b.bytes.getD k 0 ≠ 0 →
      ∃ w ∈ ws, alignBase w.1 = b.addr ∧ w.1 % 256 = k) :
    ∀ b ∈ writeByte blocks a v, ∀ k, b.bytes.getD k 0 ≠ 0 →
      ∃ w ∈ ws ++ [(a, v)], alignBase w.1 = b.addr ∧ w.1 % 256 = k := by
  have hnew : ∀ k, ((List.replicate 256 0).set (a % 256) v).getD k 0 ≠ 0 →
      k = a % 256 := by
    intro k hk
    rcases getD_set_cases hk with h | h
    · exact h
    · exact absurd (getD_replicate_zero 256 k) h
  have hold : ∀ (b : Block), (∀ k, b.bytes.getD k 0 ≠ 0 →
      ∃ w ∈ ws, alignBase w.1 = b.addr ∧ w.1 % 256 = k) →
      ∀ k, b.bytes.getD k 0 ≠ 0 →
      ∃ w ∈ ws ++ [(a, v)], alignBase w.1 = b.addr ∧ w.1 % 256 = k := by
    intro b hb k hk
    obtain ⟨w, hw, hw2⟩ := hb k hk
    exact ⟨w, by simp [hw], hw2⟩
  intro b hb k hk
  cases blocks with
  | nil =>
    simp only [writeByte, List.mem_singleton] at hb
    subst hb
    refine ⟨(a, v), by simp, ?_, (hnew k hk).symm⟩
    rfl
  | cons b0 rest =>
    rw [writeByte] at hb
    by_cases hb0 : b0.addr = alignBase a
    · rw [if_pos hb0] at hb
      rcases List.mem_cons.mp hb with hb | hb
      · subst hb
        simp only [] at hk
        rcases getD_set_cases hk with h | h
        · exact ⟨(a, v), by simp, by simp [hb0], h.symm⟩
        · exact hold b0 (h1 b0 (by simp)) k (by simpa using h)
      · exact hold b (h1 b (by simp [hb])) k hk
    · rw [if_neg hb0] at hb
      rcases List.mem_cons.mp hb with hb | hb
      · subst hb
        refine ⟨(a, v), by simp, rfl, (hnew k hk).symm⟩
      · exact hold b (h1 b hb) k hk

/-- C10 (amended).  Whenever every packed header word is in `struct.pack`'s
`I` range — the family id, the block count and every block base address
below `2^32` — every UF2 block emitted by `convert_from_hex_to_uf2` is
exactly 512 bytes with the header payload-length field (bytes 16..19)
fixed at 256; payload positions never written by any data record are
zero; the total output length is `512 *` the number of blocks started; and
an input with no data-record writes (in particular, no data records at
all) yields the empty output.  Unconditionally the original claim is
false: `struct.pack("<I", ·)` raises `struct.error` on a word `≥ 2^32`,
reachable with `familyid ≥ 2^32` or with a type-4 record that carries a
data byte to address `2^32` — refuted by
`hex_encode_raises_on_address_overflow`, where a block is started but the
call raises instead of returning `512 *` blocks bytes. -/
theorem hex_output_block_invariants (fid : Nat) (buf : List Char)
    (r : HexState) (h : hexToBlocks buf = .ok r)
    (hf : fid < 2 ^ 32) (hbn : r.blocks.length < 2 ^ 32)
    (haddr : ∀ b ∈ r.blocks, b.addr < 2 ^ 32) :
    convert_from_hex_to_uf2 fid buf =
      .ok (renderAll fid r.blocks.length 0 r.blocks, r.appstartaddr) ∧
    (renderAll fid r.blocks.length 0 r.blocks).length =
      512 * r.blocks.length ∧
    (∀ b ∈ r.blocks, ∀ i n, (Block.render fid b i n).length = 512 ∧
      ((Block.render fid b i n).drop 16).take 4 = [0, 1, 0, 0]) ∧
    (∀ b ∈ r.blocks, ∀ k, k < 256 →
      (∀ w ∈ r.writes, ¬(alignBase w.1 = b.addr ∧ w.1 % 256 = k)) →
      b.bytes.getD k 0 = 0) ∧
    (r.writes = [] → convert_from_hex_to_uf2 fid buf =
      .ok ([], r.appstartaddr)) := by
  have henc : encodeAll fid r.blocks.length 0 r.blocks =
      .ok (renderAll fid r.blocks.length 0 r.blocks) :=
    encodeAll_ok fid r.blocks.length hbn hf r.blocks 0 (by omega) haddr
  have hconv : convert_from_hex_to_uf2 fid buf =
      .ok (renderAll fid r.blocks.length 0 r.blocks, r.appstartaddr) := by
    unfold convert_from_hex_to_uf2
    simp only [Bind.bind, Except.bind]
    rw [h]
    simp only []
    rw [henc]
    rfl
  -- recover the loop-state invariant
  unfold hexToBlocks at h
  cases hpl : processLines ⟨0, none, [], []⟩ (splitLines buf) with
  | error e => rw [hpl] at h; exact Except.noConfusion h
  | ok st =>
    rw [hpl] at h
    simp only [Except.map] at h
    cases h
    have hzi : HexZeroInv st := by
      refine processLines_preserves HexZeroInv (fun st u hP => hP)
        (fun st a hP => hP) ?_ (splitLines buf) ⟨0, none, [], []⟩ st hpl
        ⟨by simp, fun _ => rfl⟩
      intro st a v hP
      exact ⟨inv10_writeByte st.blocks st.writes a v hP.1,
        fun hc => absurd hc (by simp)⟩
    refine ⟨hconv, renderAll_length fid _ _ 0, ?_, ?_, ?_⟩
    · intro b _ i n
      exact ⟨Block_render_length fid b i n, Block_render_payloadLen fid b i n⟩
    · intro b hb k _ hnw
      by_contra hnz
      obtain ⟨w, hw, hw2, hw3⟩ := hzi.1 b (by simpa using hb) k hnz
      exact hnw w hw ⟨hw2, hw3⟩
    · intro hws
      have hempty : st.blocks = [] := hzi.2 hws
      rw [hconv]
      simp [hempty, renderAll]

/-- C10 witness fixture: one data record with two bytes at `0x0100`. -/
def c10WitnessInput : List Char := (":02010000AABB00").toList

/-- The hex-decoder state for `c10WitnessInput`. -/
def c10WitnessResult : HexState :=
  ⟨0, some 256, [⟨256, ((List.replicate 256 0).set 0 170).set 1 187⟩],
    [(256, 170), (257, 187)]⟩

set_option maxRecDepth 100000 in
/-- Witness for `hex_output_block_invariants` at `c10WitnessInput`: the
single emitted block gives a 512-byte output. -/
theorem hex_output_block_invariants_witness :
    convert_from_hex_to_uf2 7 c10WitnessInput =
      .ok (renderAll 7 c10WitnessResult.blocks.length 0
        c10WitnessResult.blocks, c10WitnessResult.appstartaddr) ∧
    (renderAll 7 c10WitnessResult.blocks.length 0
      c10WitnessResult.blocks).length = 512 * c10WitnessResult.blocks.length := by
  have hr := hex_output_block_invariants 7 c10WitnessInput c10WitnessResult rfl
    (by decide) (by decide) (by decide)
  exact ⟨hr.1, hr.2.1⟩

/-- Counterexample fixture for C10: the type-4 record sets the upper
address word to `0xFFFF0000`, and the two-byte data record at offset
`0xFFFF` then writes its second byte at address `2^32`, starting a block
whose base address no longer fits `struct.pack("<I", ·)`. -/
def c10OverflowInput : List Char :=
  (":02000004FFFFFC\n:02FFFF00AABB9B").toList

set_option maxRecDepth 100000 in
/-- Counterexample for C10: on `c10OverflowInput` the parse phase starts
two blocks (bases `0xFFFFFF00` and `2^32`), yet `convert_from_hex_to_uf2`
raises `struct.error` while encoding the second block instead of returning
`512 * 2` output bytes — even with `familyid = 0`. -/
theorem hex_encode_raises_on_address_overflow :
    (hexToBlocks c10OverflowInput).map
        (fun st => st.blocks.map Block.addr) =
      .ok [0xFFFFFF00, 2 ^ 32] ∧
    convert_from_hex_to_uf2 0 c10OverflowInput =
      .error "struct.error: argument out of range" := by
  exact ⟨by rfl, by rfl⟩

/-! ## C6: family-argument resolution -/

theorem load_families_keys_nodup :
    (load_families.map (fun e => e.1.toList)).Nodup := by decide

theorem load_families_keys_head_not_digit :
    load_families.all (fun e =>
      match e.1.toList with
      | [] => false
      | c :: _ => decide (c.toNat < 48 ∨ 57 < c.toNat)) = true := by decide

/-- Numeric value of a digit string. -/
def digitsVal (base : Nat) (ds : List Char) : Nat :=
  ds.foldl (fun a c => a * base + (pyDigitVal base c).getD 0) 0

theorem pyDigitVal_underscore (base : Nat) : pyDigitVal base '_' = none := rfl

theorem pyDigitVal_isSome_bounds {base : Nat} {c : Char}
    (h : (pyDigitVal base c).isSome) :
    (48 ≤ c.toNat ∧ c.toNat ≤ 57) ∨ (97 ≤ c.toNat ∧ c.toNat ≤ 122) ∨
      (65 ≤ c.toNat ∧ c.toNat ≤ 90) := by
  unfold pyDigitVal at h
  by_cases h1 : 48 ≤ c.toNat ∧ c.toNat ≤ 57
  · exact Or.inl h1
  by_cases h2 : 97 ≤ c.toNat ∧ c.toNat ≤ 122
  · exact Or.inr (Or.inl h2)
  by_cases h3 : 65 ≤ c.toNat ∧ c.toNat ≤ 90
  · exact Or.inr (Or.inr h3)
  rw [if_neg h1, if_neg h2, if_neg h3] at h
  simp at h

theorem pyDigitVal_not_space {base : Nat} {c : Char}
    (h : (pyDigitVal base c).isSome) : isPySpace c = false := by
  have hb := pyDigitVal_isSome_bounds h
  unfold isPySpace
  simp only [decide_eq_false_iff_not]
  omega

theorem pyDigitVal_not_underscore {base : Nat} {c : Char}
    (h : (pyDigitVal base c).isSome) : ¬c = '_' := by
  intro hc
  subst hc
  rw [pyDigitVal_underscore] at h
  exact absurd h (by simp)

theorem pyDigitVal10_digit {c : Char} (h : (pyDigitVal 10 c).isSome) :
    48 ≤ c.toNat ∧ c.toNat ≤ 57 := by
  by_cases h1 : 48 ≤ c.toNat ∧ c.toNat ≤ 57
  · exact h1
  exfalso
  unfold pyDigitVal at h
  rw [if_neg h1] at h
  by_cases h2 : 97 ≤ c.toNat ∧ c.toNat ≤ 122
  · rw [if_pos h2] at h
    simp only [] at h
    rw [if_neg (by omega : ¬c.toNat - 87 < 10)] at h
    exact absurd h (by simp)
  rw [if_neg h2] at h
  by_cases h3 : 65 ≤ c.toNat ∧ c.toNat ≤ 90
  · rw [if_pos h3] at h
    simp only [] at h
    rw [if_neg (by omega : ¬c.toNat - 55 < 10)] at h
    exact absurd h (by simp)
  · rw [if_neg h3] at h
    exact absurd h (by simp)

theorem digitsLoop_all_digits (base : Nat) :
    ∀ (ds : List Char) (acc : Nat),
    (∀ c ∈ ds, (pyDigitVal base c).isSome) →
    digitsLoop base acc ds = some (ds.foldl
      (fun a c => a * base + (pyDigitVal base c).getD 0) acc) := by
  intro ds
  induction ds with
  | nil => intro acc _; rfl
  | cons c rest ih =>
    intro acc hall
    have hc := hall c (by simp)
    rw [digitsLoop.eq_def]
    simp only [if_neg (pyDigitVal_not_underscore hc)]
    obtain ⟨v, hv⟩ := Option.isSome_iff_exists.mp hc
    rw [hv]
    simp only []
    rw [ih (acc * base + v) (fun c2 hc2 => hall c2 (by simp [hc2]))]
    rw [List.foldl_cons, hv]
    rfl

theorem digitRun_all_digits (base : Nat) (ds : List Char) (h : ds ≠ [])
    (hall : ∀ c ∈ ds, (pyDigitVal base c).isSome) :
    digitRun base ds = some (digitsVal base ds) := by
  cases ds with
  | nil => exact absurd rfl h
  | cons c rest =>
    have hc := hall c (by simp)
    obtain ⟨v, hv⟩ := Option.isSome_iff_exists.mp hc
    rw [digitRun, hv]
    simp only []
    rw [digitsLoop_all_digits base rest v
      (fun c2 hc2 => hall c2 (by simp [hc2]))]
    unfold digitsVal
    rw [List.foldl_cons, hv]
    simp

theorem pyStrip_eq_self (l : List Char)
    (h : ∀ c ∈ l, isPySpace c = false) : pyStrip l = l := by
  have hd : ∀ (m : List Char), (∀ c ∈ m, isPySpace c = false) →
      m.dropWhile isPySpace = m := by
    intro m hm
    cases m with
    | nil => rfl
    | cons c rest =>
      rw [List.dropWhile_cons, hm c (by simp)]
      simp
  unfold pyStrip
  rw [hd l h, hd l.reverse (fun c hc => h c (List.mem_reverse.mp hc)),
    List.reverse_reverse]

theorem pyIntBase0_hexLit (ds : List Char) (h : ds ≠ [])
    (hall : ∀ c ∈ ds, (pyDigitVal 16 c).isSome) :
    pyIntBase0 ('0' :: 'x' :: ds) = some (Int.ofNat (digitsVal 16 ds)) := by
  have hns : ∀ c ∈ ('0' :: 'x' :: ds), isPySpace c = false := by
    intro c hc
    rcases List.mem_cons.mp hc with hc | hc
    · subst hc; rfl
    rcases List.mem_cons.mp hc with hc | hc
    · subst hc; rfl
    · exact pyDigitVal_not_space (hall c hc)
  unfold pyIntBase0
  rw [pyStrip_eq_self _ hns]
  simp only []
  rw [if_neg (by decide), if_neg (by decide)]
  rw [pyIntBody]
  rw [if_pos ⟨rfl, Or.inl rfl⟩]
  cases ds with
  | nil => exact absurd rfl h
  | cons c rest =>
    rw [pyBasedRun, if_neg (pyDigitVal_not_underscore (hall c (by simp)))]
    rw [digitRun_all_digits 16 (c :: rest) (by simp) hall]
    rfl

theorem pyIntBase0_decLit (ds : List Char) (h : ds ≠ [])
    (hall : ∀ c ∈ ds, (pyDigitVal 10 c).isSome)
    (hz : ∀ c, ds.head? = some c → c = '0' → digitsVal 10 ds = 0) :
    pyIntBase0 ds = some (Int.ofNat (digitsVal 10 ds)) := by
  have hns : ∀ c ∈ ds, isPySpace c = false :=
    fun c hc => pyDigitVal_not_space (hall c hc)
  have hdec : pyDecRun ds = some (digitsVal 10 ds) := by
    unfold pyDecRun
    rw [digitRun_all_digits 10 ds h hall]
    cases ds with
    | nil => exact absurd rfl h
    | cons c rest =>
      simp only []
      by_cases hc0 : c = '0'
      · rw [hz c rfl hc0]
        simp
      · rw [if_neg (by simp [hc0])]
  have hbody : pyIntBody ds = some (digitsVal 10 ds) := by
    cases ds with
    | nil => exact absurd rfl h
    | cons c0 rest =>
      cases rest with
      | nil =>
        rw [pyIntBody]
        · exact hdec
        · intro c1 c2 rest he
          simp at he
      | cons c1 rest2 =>
        have hc1 := pyDigitVal10_digit (hall c1 (by simp))
        have hno : ∀ x : Char, 65 ≤ x.toNat → (¬c1 = x) := by
          intro x hx he
          subst he
          omega
        rw [pyIntBody,
          if_neg (by
            rintro ⟨h0, hx⟩
            rcases hx with hx | hx
            · exact hno 'x' (by decide) hx
            · exact hno 'X' (by decide) hx),
          if_neg (by
            rintro ⟨h0, hx⟩
            rcases hx with hx | hx
            · exact hno 'o' (by decide) hx
            · exact hno 'O' (by decide) hx),
          if_neg (by
            rintro ⟨h0, hx⟩
            rcases hx with hx | hx
            · exact hno 'b' (by decide) hx
            · exact hno 'B' (by decide) hx)]
        exact hdec
  unfold pyIntBase0
  rw [pyStrip_eq_self _ hns]
  cases ds with
  | nil => exact absurd rfl h
  | cons c0 rest =>
    have hd0 := pyDigitVal10_digit (hall c0 (by simp))
    simp only []
    rw [if_neg (by intro he; subst he; revert hd0; decide),
      if_neg (by intro he; subst he; revert hd0; decide)]
    rw [hbody]
    rfl

/-- C6 (amended).  Family-argument resolution (a) succeeds on any string
whose ASCII upper-casing equals a registered short name verbatim — which
gives case-insensitive resolution exactly for the names whose registered
spelling contains no lowercase letter; (b) accepts every canonical hex
literal `0x...`; (c) accepts every canonical decimal literal (no redundant
leading zero); and (d) an argument that matches no registered name after
upper-casing and is not an `int(s, 0)` numeral is a fatal configuration
error listing the valid names.  The original claim's "succeeds
case-insensitively on every registered short name" fails for the five
names registered with lowercase letters (`MaixPlay-U4`, `STM32F411xE`,
`STM32F411xC`, `NRF52832xxAA`, `NRF52832xxAB`): the code upper-cases the
argument but keys the table by the raw spelling, so no casing of these
names resolves — refuted by `family_resolution_misses_lowercase_name`. -/
theorem family_resolution_spec :
    (∀ (s name : String) (id : Int), (name, id) ∈ load_families →
      s.toList.map pyUpper = name.toList → resolveFamily s = .ok id) ∧
    (∀ ds : List Char, ds ≠ [] → (∀ c ∈ ds, (pyDigitVal 16 c).isSome) →
      resolveFamily (String.mk ('0' :: 'x' :: ds)) =
        .ok (Int.ofNat (digitsVal 16 ds))) ∧
    (∀ ds : List Char, ds ≠ [] → (∀ c ∈ ds, (pyDigitVal 10 c).isSome) →
      (∀ c, ds.head? = some c → c = '0' → digitsVal 10 ds = 0) →
      resolveFamily (String.mk ds) = .ok (Int.ofNat (digitsVal 10 ds))) ∧
    (∀ s : String, (∀ e ∈ load_families, e.1.toList ≠ s.toList.map pyUpper) →
      pyIntBase0 s.toList = none →
      resolveFamily s = .error (load_families.map Prod.fst)) := by
  have hknd := load_families_keys_nodup
  have hhead := load_families_keys_head_not_digit
  have hdigit_miss : ∀ (l : List Char) (c0 : Char), 48 ≤ c0.toNat →
      c0.toNat ≤ 57 →
      (load_families.find?
        (fun e => e.1.toList = (c0 :: l).map pyUpper)) = none := by
    intro l c0 hc0l hc0u
    rw [List.find?_eq_none]
    intro e he
    simp only [decide_eq_true_eq]
    intro hkey
    have hhe := List.all_eq_true.mp hhead e he
    have hup : pyUpper c0 = c0 := by
      unfold pyUpper
      rw [if_neg (by omega)]
    rw [List.map_cons, hup] at hkey
    revert hhe
    rw [hkey]
    simp only []
    intro hcontra
    simp only [decide_eq_true_eq] at hcontra
    omega
  refine ⟨?_, ?_, ?_, ?_⟩
  · intro s name id hmem hupper
    unfold resolveFamily
    simp only []
    cases he : List.find? (fun e => decide (e.1.toList =
        List.map pyUpper s.toList)) load_families with
    | none =>
      exfalso
      have hn := List.find?_eq_none.mp he (name, id) hmem
      simp only [decide_eq_true_eq] at hn
      exact hn hupper.symm
    | some e =>
      have hpe : e.1.toList = List.map pyUpper s.toList := by
        have hp := List.find?_some he
        simpa using hp
      have hemem := List.mem_of_find?_eq_some he
      have heq : e = (name, id) :=
        List.inj_on_of_nodup_map hknd hemem hmem (by rw [hpe, hupper])
      rw [heq]
  · intro ds h hall
    unfold resolveFamily
    simp only []
    have hlist : (String.mk ('0' :: 'x' :: ds)).toList = '0' :: 'x' :: ds := rfl
    rw [hlist, hdigit_miss ('x' :: ds) '0' (by decide) (by decide),
      pyIntBase0_hexLit ds h hall]
  · intro ds h hall hz
    cases ds with
    | nil => exact absurd rfl h
    | cons c0 rest =>
      unfold resolveFamily
      simp only []
      have hlist : (String.mk (c0 :: rest)).toList = c0 :: rest := rfl
      have hd := pyDigitVal10_digit (hall c0 (by simp))
      rw [hlist, hdigit_miss rest c0 hd.1 hd.2,
        pyIntBase0_decLit (c0 :: rest) h hall hz]
  · intro s hname hnum
    unfold resolveFamily
    simp only []
    rw [List.find?_eq_none.mpr (fun e he => by
        simp only [decide_eq_true_eq]
        exact hname e he), hnum]

/-- Witness for C6: the registered name `RP2040` resolves case-insensitively
(the lowercase spelling `rp2040` maps to id 0xe48bff56). -/
theorem family_resolution_spec_witness :
    ("RP2040", (3834380118 : Int)) ∈ load_families ∧
    resolveFamily "rp2040" = .ok 3834380118 :=
  ⟨by decide, family_resolution_spec.1 "rp2040" "RP2040" 3834380118
    (by decide) (by decide)⟩

/-- Counterexample for C6: `MaixPlay-U4` is a registered short name, yet
resolving the exact registered spelling (or any other casing of it) fails,
because the argument is upper-cased before lookup while the table is keyed
by the raw mixed-case spelling. -/
theorem family_resolution_misses_lowercase_name :
    ("MaixPlay-U4", (0x4b684d71 : Int)) ∈ load_families ∧
    resolveFamily "MaixPlay-U4" = .error (load_families.map Prod.fst) ∧
    resolveFamily "MAIXPLAY-U4" = .error (load_families.map Prod.fst) := by
  refine ⟨by decide, ?_, ?_⟩ <;> rfl

/-! ## C8: info mode on UF2 input -/

/-- Fixture for C8: one well-formed untagged UF2 block carrying the bytes
1,2,3,4 at address 0x2000. -/
def c8Buf : List Nat := mkUF2Block 0 0x2000 4 0 1 0 [1, 2, 3, 4]

/-- Fixture for C8: info mode with none of the output-producing options. -/
def c8InfoArgs : MainArgs :=
  ⟨0x2000, 0, false, true, false, false, false, none⟩

/-- Fixture for C8: info mode combined with deploy and an output path. -/
def c8DeployArgs : MainArgs :=
  ⟨0x2000, 0, true, true, false, false, false, some "out.bin"⟩

/-- Fixture for C8: the effect plan of the info-only invocation. -/
def c8InfoPlan : Plan := ⟨.str "", "uf2", some 0x2000, [], []⟩

/-- C8 (amended).  On UF2 input with info mode and none of the options that
route bytes elsewhere (no deploy, no explicit output path, no convert), a
successful run produces the empty-string output buffer, writes no file and
writes to no drive.  The original "regardless of the other options given"
is refuted by `uf2_info_still_writes_under_deploy`: deploy takes precedence
over info in the branch chain, so `--deploy --info` with an output path
passes the raw UF2 through and writes it; moreover with `--info -c` (or
`--info -o PATH`) the file write is attempted on the str `""` opened in
binary mode, a `TypeError`. -/
theorem uf2_info_mode_no_output (args : MainArgs) (inpbuf : List Nat)
    (drives : List String) (plan : Plan)
    (huf2 : is_uf2 inpbuf = .ok true)
    (hinfo : args.info = true) (hdep : args.deploy = false)
    (hout : args.output = none) (hconv : args.convert = false)
    (hok : mainPlan args inpbuf drives = .ok plan) :
    plan.outbuf = .str "" ∧ plan.fileWrites = [] ∧ plan.driveWrites = [] := by
  obtain ⟨base, fid, dep, info, conv, carr, w, out⟩ := args
  simp only [] at hinfo hdep hout hconv
  subst hinfo hdep hout hconv
  rw [mainPlan] at hok
  simp only [Bind.bind, Except.bind] at hok
  rw [huf2] at hok
  simp only [] at hok
  rw [if_neg (by simp), if_neg (by simp), if_pos (by simp)] at hok
  cases hc : convert_from_uf2 fid base inpbuf with
  | error e => rw [hc] at hok; exact Except.noConfusion hok
  | ok s =>
    rw [hc] at hok
    simp only [pure, Except.pure] at hok
    rw [if_neg (by simp)] at hok
    rw [if_neg (by simp : ¬(false = true ∨ ("uf2" : String) ≠ "uf2"))] at hok
    simp only [] at hok
    rw [if_neg (by simp : ¬(True ∧ ¬false = true ∧ ¬True))] at hok
    simp only [Except.ok.injEq] at hok
    rw [← hok]
    exact ⟨rfl, rfl, rfl⟩

set_option maxRecDepth 100000 in
/-- Witness for C8: on the one-block fixture with info mode and no
deploy/output/convert, the plan is the empty-string buffer with no file
and no drive writes. -/
theorem uf2_info_mode_no_output_witness :
    is_uf2 c8Buf = .ok true ∧
    mainPlan c8InfoArgs c8Buf [] = .ok c8InfoPlan ∧
    (c8InfoPlan.outbuf = .str "" ∧ c8InfoPlan.fileWrites = [] ∧
      c8InfoPlan.driveWrites = []) :=
  ⟨by rfl, by rfl,
    uf2_info_mode_no_output c8InfoArgs c8Buf [] c8InfoPlan (by rfl) rfl rfl
      rfl rfl (by rfl)⟩

set_option maxRecDepth 100000 in
/-- Counterexample for C8: `--deploy --info -o out.bin` on UF2 input — info
mode is requested, yet the deploy branch (tested first) passes the raw UF2
through and the run writes it to the output file. -/
theorem uf2_info_still_writes_under_deploy :
    is_uf2 c8Buf = .ok true ∧ c8DeployArgs.info = true ∧
    (mainPlan c8DeployArgs c8Buf []).map
        (fun p => (p.outbuf, p.fileWrites, p.driveWrites)) =
      .ok (OutBuf.bytes c8Buf, [("out.bin", c8Buf)], []) :=
  ⟨by rfl, rfl, by rfl⟩
